import Mathlib

/-!
Verification development for the `pdf_generator` document-object-model and
serialization core (a fluent builder that composes structured documents and
serializes them into LaTeX markup).

Strings are modelled as `List Char` (the character sequence of a Python
`str`); `lit s` injects a Lean string literal.  Filesystem access (existence
checks, `Path.absolute`, `glob`) is modelled by an explicit oracle `FS`
passed to every function that touches the filesystem in the source.
Fallible code returns `Except Str α` where the Python raises.
-/

set_option maxRecDepth 16384

/-- Character-sequence model of a Python `str`. -/
abbrev Str := List Char

/-- Injects a Lean string literal into the `Str` model. -/
def lit (s : String) : Str := s.data

/-- Fuel-indexed scan for `str_replace`; the fuel (initially the subject's
length) only discharges termination and never runs out, since every step
consumes at least one subject character. -/
def str_replace_go : Nat → Str → Str → Str → Str
  | _, [], _, _ => []
  | 0, s, _, _ => s
  | fuel + 1, c :: cs, needle, repl =>
    if needle ≠ [] ∧ needle <+: (c :: cs) then
      repl ++ str_replace_go fuel ((c :: cs).drop needle.length) needle repl
    else
      c :: str_replace_go fuel cs needle repl

/-- Model of Python `str.replace(needle, repl)` for a non-empty needle:
occurrences are replaced left to right, non-overlapping. -/
def str_replace (s needle repl : Str) : Str :=
  str_replace_go s.length s needle repl

/-- Model of `pdf_generator/utils/encoding.py`, `escape_latex_special_chars`:
`text.replace('{', '\\{').replace('}', '\\}')` — escapes the two brace
characters and leaves every other character (including backslashes) alone. -/
def escape_latex_special_chars (text : Str) : Str :=
  str_replace (str_replace text (lit "\x7b") (lit "\\\x7b")) (lit "\x7d") (lit "\\\x7d")

/-- Per-character escaping action implied by the two brace replacements
(the claim-side description of `escape_latex_special_chars`). -/
def escChar (c : Char) : Str :=
  if c = '{' then lit "\\\x7b" else if c = '}' then lit "\\\x7d" else [c]

/-- Number of brace characters in a string. -/
def countBraces (s : Str) : Nat :=
  s.countP (fun c => c = '{' || c = '}')

/-- Scanner for `countEscapedBracePairs`; the flag records whether an
unconsumed backslash immediately precedes the current position. -/
def countEBP_go : Bool → Str → Nat
  | _, [] => 0
  | pending, c :: cs =>
    if pending ∧ (c = '{' ∨ c = '}') then 1 + countEBP_go false cs
    else countEBP_go (c = '\\') cs

/-- Number of escaped-brace pairs: adjacent backslash-brace two-character
groups, scanned left to right, a matched pair being consumed whole. -/
def countEscapedBracePairs (s : Str) : Nat := countEBP_go false s

/-- Python `dict` assignment `d[k] = v`: replaces the value in place if the
key is present (keeping its position in insertion order), else appends. -/
def dict_set (d : List (Str × Option Str)) (k : Str) (v : Option Str) :
    List (Str × Option Str) :=
  match d with
  | [] => [(k, v)]
  | (k', v') :: rest => if k' = k then (k, v) :: rest else (k', v') :: dict_set rest k v

/-- Python `dict` assignment for string-valued dictionaries (resource path
mappings). -/
def rmap_set (d : List (Str × Str)) (k : Str) (v : Str) : List (Str × Str) :=
  match d with
  | [] => [(k, v)]
  | (k', v') :: rest => if k' = k then (k, v) :: rest else (k', v') :: rmap_set rest k v

/-- Python `dict.update(d2)`: assigns every entry of `d2` in order into `d`. -/
def rmap_update (d d2 : List (Str × Str)) : List (Str × Str) :=
  d2.foldl (fun acc kv => rmap_set acc kv.1 kv.2) d

/-- Python `dict.lookup`-style access used to model `package in packages`. -/
def dict_lookup (d : List (Str × Option Str)) (k : Str) : Option (Option Str) :=
  match d with
  | [] => none
  | (k', v') :: rest => if k' = k then some v' else dict_lookup rest k

/-- Truthiness of an optional Python string (`None` and `""` are falsy). -/
def pyTruthy : Option Str → Bool
  | none => false
  | some t => !t.isEmpty

/-- POSIX model of `pathlib.Path(p).name`: the part after the final slash
(paths are assumed already normalized, with no trailing slash). -/
def path_name (p : Str) : Str :=
  ((p.reverse.takeWhile (fun c => c ≠ '/')).reverse)

/-- POSIX model of `pathlib.Path(p).parent`: the part before the final slash;
`"."` when there is no slash, `"/"` for a direct child of the root. -/
def path_parent (p : Str) : Str :=
  if p.contains '/' then
    let pre := (p.reverse.dropWhile (fun c => c ≠ '/')).drop 1 |>.reverse
    if pre = [] then lit "/" else pre
  else lit "."

/-- Model of `pathlib.Path(p).suffix`: the final extension of the name,
empty when the name has no dot past its first character. -/
def path_suffix (p : Str) : Str :=
  let n := path_name p
  let tail := n.drop 1
  if tail.contains '.' then
    '.' :: (tail.reverse.takeWhile (fun c => c ≠ '.')).reverse
  else []

/-- Model of `pathlib.Path(p).stem`: the name with `path_suffix` removed. -/
def path_stem (p : Str) : Str :=
  let n := path_name p
  n.take (n.length - (path_suffix p).length)

/-- Accumulator loop for `dedup_keep_first`: keeps the first occurrence of
each value, in order. -/
def dedup_keep_first_go (seen : List Str) : List Str → List Str
  | [] => []
  | x :: xs =>
    if x ∈ seen then dedup_keep_first_go seen xs
    else x :: dedup_keep_first_go (seen ++ [x]) xs

/-- Model of `list(dict.fromkeys(l))`: removes duplicates keeping the first
occurrence of each value. -/
def dedup_keep_first (l : List Str) : List Str := dedup_keep_first_go [] l

/-- Filesystem oracle: the source's only external collaborators during
resource processing and preamble assembly.  `pathExists` models
`Path.exists()`, `absolute` models `Path.absolute()` stringification,
`globBoldTtf dir` / `globBoldOtf dir` model the first filename produced by
`Path(dir).glob("*Bold*.ttf")` / `…(".otf")`, if any. -/
structure FS where
  pathExists : Str → Bool
  absolute : Str → Str
  globBoldTtf : Str → Option Str
  globBoldOtf : Str → Option Str

/-- Trivial oracle for concrete witnesses: no files exist, `absolute` is the
identity, globs are empty. -/
def fsEmpty : FS :=
  { pathExists := fun _ => false
    absolute := fun p => p
    globBoldTtf := fun _ => none
    globBoldOtf := fun _ => none }

/-- Detects a second occurrence pattern `"__"` inside a digit run. -/
def hasDoubleUnderscore : Str → Bool
  | '_' :: '_' :: _ => true
  | _ :: rest => hasDoubleUnderscore rest
  | [] => false

/-- Recognizes a Python numeric digit run: digits optionally separated by
single underscores (ASCII digits; exotic Unicode digits are not modelled). -/
def isDigitRun (s : Str) : Bool :=
  match s with
  | [] => false
  | _ =>
    (s.head?.all Char.isDigit) && (s.getLast?.all Char.isDigit) &&
      (s.all fun c => c.isDigit || c = '_') && !(hasDoubleUnderscore s)

/-- Splits a string at the first occurrence of a character, if present. -/
def splitFirst (c : Char) : Str → Str × Option Str
  | [] => ([], none)
  | a :: rest =>
    if a = c then ([], some rest)
    else
      let (pre, post) := splitFirst c rest
      (a :: pre, post)

/-- Model of the acceptance set of Python `float(str)` (used by
`Image.to_latex` inside the `try: float(self.width)` probe): optional
surrounding whitespace and sign, then `inf`/`infinity`/`nan`
(case-insensitive) or a decimal mantissa with optional fraction and
exponent, with single underscores permitted between digits. -/
def pyFloatAccepts (s : Str) : Bool :=
  let t := ((s.dropWhile Char.isWhitespace).reverse.dropWhile Char.isWhitespace).reverse
  let t2 := match t with
    | c :: rest => if c = '+' ∨ c = '-' then rest else t
    | [] => []
  let low := t2.map Char.toLower
  if low = lit "inf" ∨ low = lit "infinity" ∨ low = lit "nan" then true
  else
    let (mant, expPart) := splitFirst 'e' low
    let mantOk :=
      match splitFirst '.' mant with
      | (ip, none) => isDigitRun ip
      | (ip, some fp) =>
        (ip.isEmpty || isDigitRun ip) && (fp.isEmpty || isDigitRun fp) &&
          !(ip.isEmpty && fp.isEmpty)
    let expOk :=
      match expPart with
      | none => true
      | some ep =>
        let ep2 := match ep with
          | c :: rest => if c = '+' ∨ c = '-' then rest else ep
          | [] => []
        isDigitRun ep2
    mantOk && expOk

/-- Model of `Section.to_latex`'s level dictionary (`structure.py`):
insertion-ordered mapping from level to structural command. -/
def section_commands : List (Int × Str) :=
  [(1, lit "\\section"), (2, lit "\\subsection"), (3, lit "\\subsubsection"),
   (4, lit "\\paragraph"), (5, lit "\\subparagraph")]

/-- Model of the command selection in `Section.to_latex`:
`commands.get(self.level, "\\section")` followed by the starred suffix when
the numbered flag is false. -/
def section_command (level : Int) (numbered : Bool) : Str :=
  ((section_commands.lookup level).getD (lit "\\section")) ++
    (if numbered then [] else lit "*")

mutual
/-- DOM element model (`pdf_generator/elements/`): the constructors carry
exactly the attributes the corresponding Python classes read when rendering
or processing resources.  `sect` embeds `Section`, `exercise` embeds
`Exercise`, `image` embeds `Image` (with its `processed_path` cache),
`drawingSpace` embeds `DrawingSpace`, `text`/`paragraph` embed
`Text`/`Paragraph`. -/
inductive Element where
  | text (content : Str) (bold : Bool) (children : ElementList)
  | paragraph (content : Str) (bold : Bool) (children : ElementList)
  | sect (title : Str) (level : Int) (label : Option Str) (numbered : Bool)
      (children : ElementList)
  | exercise (title : Str) (content : Str) (items : List Str) (columns : Int)
      (children : ElementList)
  | image (imagePath : Str) (caption : Option Str) (width : Str)
      (height : Option Str) (label : Option Str) (position : Str)
      (inline : Bool) (processedPath : Option Str)
  | drawingSpace (width : Str) (rightMargin : Str)
      (marginContent : MarginContent) (children : ElementList)
/-- Ordered child list of an element (`LaTeXElement.children`). -/
inductive ElementList where
  | nil
  | cons (e : Element) (es : ElementList)
/-- The `DrawingSpace.margin_content` attribute: absent, a raw markup
string, or an element. -/
inductive MarginContent where
  | noContent
  | ofStr (s : Str)
  | ofElem (e : Element)
end

/-- Model of `Image.to_latex` (`graphics.py`): uses the cached processed
path when truthy, else the constructor path with backslashes replaced by
slashes; a numeric-looking width gets a `\textwidth` unit appended. -/
def image_latex (imagePath : Str) (caption : Option Str) (width : Str)
    (height : Option Str) (label : Option Str) (position : Str)
    (inline : Bool) (processedPath : Option Str) : Str :=
  let path := if pyTruthy processedPath then processedPath.getD []
              else str_replace imagePath (lit "\\") (lit "/")
  let opts : List Str :=
    (if width.isEmpty then []
     else if pyFloatAccepts width then [lit "width=" ++ width ++ lit "\\textwidth"]
     else [lit "width=" ++ width]) ++
    (if pyTruthy height then [lit "height=" ++ height.getD [] ++ lit "\\textheight"] else [])
  let optStr := if opts.isEmpty then [] else lit "[" ++ List.intercalate (lit ", ") opts ++ lit "]"
  if inline then
    lit "\x7b\\centering\n\\includegraphics" ++ optStr ++ lit "\x7b" ++ path ++ lit "\x7d\n" ++
      (if pyTruthy caption then lit "\\par\\textit\x7b" ++ caption.getD [] ++ lit "\x7d\n" else []) ++
      lit "\\par\x7d\n"
  else
    lit "\\begin\x7bfigure\x7d[" ++ position ++ lit "]\n    \\centering\n    \\includegraphics" ++
      optStr ++ lit "\x7b" ++ path ++ lit "\x7d\n" ++
      (if pyTruthy caption then lit "    \\caption\x7b" ++ caption.getD [] ++ lit "\x7d\n" else []) ++
      (if pyTruthy label then lit "    \\label\x7b" ++ label.getD [] ++ lit "\x7d\n" else []) ++
      lit "\\end\x7bfigure\x7d\n"

/-- Model of the `Exercise.to_latex` item loop: one `\item` line per item,
items passed through unescaped. -/
def item_lines : List Str → Str
  | [] => []
  | it :: its => lit "  \\item " ++ it ++ lit "\n" ++ item_lines its

mutual
/-- Depth-first rendering (`to_latex` of each element class).  Each case is
the string built by the corresponding Python method, with the element's own
markup first and, for the classes that do so, the children appended. -/
def Element.to_latex : Element → Str
  | .text content bold children =>
      (if bold then lit "\\noindent \\textbf\x7b" ++ escape_latex_special_chars content ++ lit "\x7d"
       else lit "\\noindent " ++ content) ++ children_pre children
  | .paragraph content bold children =>
      lit "\\noindent " ++
        (if bold then lit "\\textbf\x7b" ++ escape_latex_special_chars content ++ lit "\x7d"
         else content) ++
        lit "\n\n" ++ children_post children
  | .sect title level label numbered children =>
      section_command level numbered ++ lit "\x7b" ++ title ++ lit "\x7d\n" ++
        (match label with
         | some lab => lit "\\label\x7b" ++ lab ++ lit "\x7d\n"
         | none => []) ++
        lit "\n" ++ children_post children
  | .exercise title content items columns children =>
      lit "\\noindent\n\\textbf\x7b" ++ escape_latex_special_chars title ++ lit "\x7d\\quad " ++
        content ++ lit "\n" ++
        (if items.isEmpty then []
         else
           lit "\\vspace\x7b-1.5em\x7d\n" ++
           (if columns > 1 then
              lit "\\begin\x7bmulticols\x7d\x7b" ++ (toString columns).data ++ lit "\x7d\n"
            else []) ++
           lit "\\begin\x7benumerate\x7d\n  \\renewcommand\x7b\\labelenumi\x7d\x7b(\\arabic\x7benumi\x7d)\x7d\n" ++
           item_lines items ++
           lit "\\end\x7benumerate\x7d\n" ++
           (if columns > 1 then lit "\\end\x7bmulticols\x7d\n" else [])) ++
        lit "\\par\n\\vspace\x7b0.5em\x7d\n" ++ children_post children
  | .image imagePath caption width height label position inline processedPath =>
      image_latex imagePath caption width height label position inline processedPath
  | .drawingSpace width rightMargin marginContent children =>
      lit "\\noindent\n\\begin\x7bminipage\x7d[t]\x7b" ++ width ++ lit "\x7d\n" ++
        children_post children ++
        lit "\\end\x7bminipage\x7d\n\\begin\x7bminipage\x7d[t]\x7b" ++ rightMargin ++ lit "\x7d\n" ++
        (match marginContent with
         | .ofStr s => if s.isEmpty then lit "\\null\n" else s ++ lit "\n"
         | .ofElem e => e.to_latex
         | .noContent => lit "\\null\n") ++
        lit "\\end\x7bminipage\x7d\n\\par\n\\vspace\x7b1em\x7d\n"
/-- Child rendering used by `Section`, `Chapter`, `Paragraph`, `Exercise`,
`DrawingSpace`: each child's output followed by a newline. -/
def children_post : ElementList → Str
  | .nil => []
  | .cons e es => e.to_latex ++ lit "\n" ++ children_post es
/-- Child rendering used by `Text`: a newline followed by each child's
output. -/
def children_pre : ElementList → Str
  | .nil => []
  | .cons e es => lit "\n" ++ e.to_latex ++ children_pre es
end

mutual
/-- Model of the resource-processing pass (`process_resources`): images
verify their source file exists (raising a missing-resource error
otherwise), record the relocated `images/<name>` path in their
`processed_path` cache and return the original-to-resolved mapping;
container elements recurse into children merging the returned mappings with
`dict.update` semantics; `DrawingSpace` additionally processes its
margin-content element.  The byte copy itself is I/O and has no observable
effect on the returned data. -/
def Element.process_resources (fs : FS) (outputDir : Str) :
    Element → Except Str (List (Str × Str) × Element)
  | .image imagePath caption width height label position inline _ =>
      if fs.pathExists imagePath then
        let processed := lit "images/" ++ path_name imagePath
        .ok ([(imagePath, processed)],
             .image imagePath caption width height label position inline (some processed))
      else .error (lit "画像ファイルが見つかりません: " ++ imagePath)
  | .text content bold children =>
      match process_children fs outputDir [] children with
      | .error err => .error err
      | .ok (m, children') => .ok (m, .text content bold children')
  | .paragraph content bold children =>
      match process_children fs outputDir [] children with
      | .error err => .error err
      | .ok (m, children') => .ok (m, .paragraph content bold children')
  | .sect title level label numbered children =>
      match process_children fs outputDir [] children with
      | .error err => .error err
      | .ok (m, children') => .ok (m, .sect title level label numbered children')
  | .exercise title content items columns children =>
      match process_children fs outputDir [] children with
      | .error err => .error err
      | .ok (m, children') => .ok (m, .exercise title content items columns children')
  | .drawingSpace width rightMargin (.ofElem e) children =>
      match process_children fs outputDir [] children with
      | .error err => .error err
      | .ok (m, children') =>
        match e.process_resources fs outputDir with
        | .error err => .error err
        | .ok (m2, e') =>
            .ok (rmap_update m m2, .drawingSpace width rightMargin (.ofElem e') children')
  | .drawingSpace width rightMargin (.ofStr s) children =>
      match process_children fs outputDir [] children with
      | .error err => .error err
      | .ok (m, children') => .ok (m, .drawingSpace width rightMargin (.ofStr s) children')
  | .drawingSpace width rightMargin .noContent children =>
      match process_children fs outputDir [] children with
      | .error err => .error err
      | .ok (m, children') => .ok (m, .drawingSpace width rightMargin .noContent children')
/-- The child loop of the default `process_resources`: an accumulator dict
updated with each child's mapping in order. -/
def process_children (fs : FS) (outputDir : Str) (acc : List (Str × Str)) :
    ElementList → Except Str (List (Str × Str) × ElementList)
  | .nil => .ok (acc, .nil)
  | .cons e es =>
      match e.process_resources fs outputDir with
      | .error err => .error err
      | .ok (m, e') =>
        match process_children fs outputDir (rmap_update acc m) es with
        | .error err => .error err
        | .ok (res, es') => .ok (res, .cons e' es')
end

/-- Model of `Table` (`tables.py`): headers, rows and presentation
options. -/
structure Table where
  headers : List Str
  rows : List (List Str)
  caption : Option Str
  label : Option Str
  position : Str

/-- Model of `Table.__init__`: stores its arguments; it performs no
validation of row widths and never raises. -/
def Table.init (headers : List Str) (rows : List (List Str))
    (caption : Option Str := none) (label : Option Str := none)
    (position : Str := lit "h") : Except Str Table :=
  .ok ⟨headers, rows, caption, label, position⟩

/-- The row loop of `Table.to_latex`: raises the mismatch error at the
first row whose width differs from the header count. -/
def table_rows_latex (numCols : Nat) : List (List Str) → Except Str Str
  | [] => .ok []
  | row :: rest =>
      if row.length ≠ numCols then
        .error (lit "行の列数が一致しません: 期待値=" ++ (toString numCols).data ++
                lit ", 実際=" ++ (toString row.length).data)
      else
        match table_rows_latex numCols rest with
        | .error err => .error err
        | .ok tail =>
            .ok (lit "        " ++ List.intercalate (lit " & ") row ++ lit " \\\\\n" ++ tail)

/-- Model of `Table.to_latex`: tabular block with one centered column per
header; raises on the first mismatched row. -/
def Table.to_latex (t : Table) : Except Str Str :=
  let numCols := t.headers.length
  match table_rows_latex numCols t.rows with
  | .error err => .error err
  | .ok body =>
  .ok (lit "\\begin\x7btable\x7d[" ++ t.position ++
       lit "]\n    \\centering\n    \\begin\x7btabular\x7d\x7b|" ++
       List.intercalate (lit "|") (List.replicate numCols (lit "c")) ++
       lit "|\x7d\n        \\hline\n        " ++
       List.intercalate (lit " & ") t.headers ++ lit " \\\\\n        \\hline\n" ++ body ++
       lit "        \\hline\n    \\end\x7btabular\x7d\n" ++
       (if pyTruthy t.caption then lit "    \\caption\x7b" ++ t.caption.getD [] ++ lit "\x7d\n" else []) ++
       (if pyTruthy t.label then lit "    \\label\x7b" ++ t.label.getD [] ++ lit "\x7d\n" else []) ++
       lit "\\end\x7btable\x7d\n")

/-- Margin map of a `Document`: the four edge keys read by the preamble
assembler (`margins` is a Python dict; only these keys are consulted). -/
structure Margins where
  top : Option Str := none
  bottom : Option Str := none
  left : Option Str := none
  right : Option Str := none

/-- Truthiness of the margins dict (`if margins:`), for the margin maps
containing only the four edge keys. -/
def Margins.isSet (m : Margins) : Bool :=
  m.top.isSome || m.bottom.isSome || m.left.isSome || m.right.isSome

/-- Model of `PreambleManager._add_default_packages`: the default package
map in insertion order. -/
def default_packages : List (Str × Option Str) :=
  [(lit "amsmath", none), (lit "amsfonts", none), (lit "amssymb", none),
   (lit "inputenc", some (lit "[utf8]")), (lit "fontenc", some (lit "[T1]")),
   (lit "graphicx", none), (lit "hyperref", none), (lit "tcolorbox", none),
   (lit "CJKutf8", none)]

/-- The generic package loop of `generate_preamble`: one inclusion directive
per entry in insertion order, skipping the excluded packages, options-
qualified when the options string is truthy. -/
def packages_latex (skips : List Str) : List (Str × Option Str) → Str
  | [] => []
  | (p, opts) :: rest =>
      (if p ∈ skips then []
       else if pyTruthy opts then
         lit "\\usepackage" ++ opts.getD [] ++ lit "\x7b" ++ p ++ lit "\x7d\n"
       else lit "\\usepackage\x7b" ++ p ++ lit "\x7d\n") ++ packages_latex skips rest

/-- Model of the bold-variant filename patterns
(`structure generate_preamble` and `Document.process_fonts` share this
list): stem transformations followed by `dict.fromkeys` dedup. -/
def bold_patterns (fontStem : Str) : List Str :=
  dedup_keep_first
    [str_replace fontStem (lit "Regular") (lit "Bold"),
     str_replace fontStem (lit "-Regular") (lit "-Bold"),
     str_replace fontStem (lit "_Regular") (lit "_Bold"),
     fontStem ++ lit "Bold",
     fontStem ++ lit "-Bold",
     fontStem ++ lit "_Bold"]

/-- First pattern whose file exists in the directory, returning its
filename (`pattern + suffix`). -/
def find_bold_by_patterns (fs : FS) (dir : Str) (patterns : List Str) (suffix : Str) :
    Option Str :=
  match patterns with
  | [] => none
  | p :: rest =>
      if fs.pathExists (dir ++ lit "/" ++ p ++ suffix) then some (p ++ suffix)
      else find_bold_by_patterns fs dir rest suffix

/-- Bold-variant discovery of `generate_preamble`: pattern probes next to
the font file, then directory globs, then (when the short `fonts` form was
selected) the same probes against the absolute path's `fonts` directory. -/
def preamble_bold_font (fs : FS) (fontFile : Str) (fontDir : Str) (fontAbsPath : Str) :
    Option Str :=
  let patterns := bold_patterns (path_stem fontFile)
  let suffix := path_suffix fontFile
  let parent := path_parent fontFile
  let b := (find_bold_by_patterns fs parent patterns suffix).orElse
    (fun _ => (fs.globBoldTtf parent).orElse (fun _ => fs.globBoldOtf parent))
  match b with
  | some x => some x
  | none =>
    if fontDir = lit "fonts" then
      let outDir := path_parent fontAbsPath
      if fs.pathExists outDir ∧ path_name outDir = lit "fonts" then
        (find_bold_by_patterns fs outDir patterns suffix).orElse
          (fun _ => (fs.globBoldTtf outDir).orElse (fun _ => fs.globBoldOtf outDir))
      else none
    else none

/-- The font-declaration block of `generate_preamble`: resolves the font
directory to the short `fonts` form when the path contains a `fonts`
segment (case-insensitive), quotes it when it contains whitespace, and
emits the main-font declaration with a bold face option when a bold
variant was discovered. -/
def font_settings_latex (fs : FS) (ff : Str) (fontName : Option Str) : Str :=
  let fontFilename := path_name ff
  let displayName := if pyTruthy fontName then fontName.getD [] else path_stem ff
  let fontAbs := fs.absolute ff
  let fontDirStr := str_replace (path_parent fontAbs) (lit "\\") (lit "/")
  let lowered := fontDirStr.map Char.toLower
  let fontDir :=
    if (lit "/fonts") <:+: lowered ∨ (lit "\\fonts") <:+: lowered then lit "fonts"
    else fontDirStr
  let quoted :=
    if fontDir.contains ' ' ∧ fontDir.head? ≠ some '"' then lit "\"" ++ fontDir ++ lit "\""
    else fontDir
  let bold := preamble_bold_font fs ff fontDir fontAbs
  lit "\n% フォント設定\n" ++
    (match bold with
     | some bf =>
         lit "\\setCJKmainfont\x7b" ++ displayName ++ lit "\x7d[Path=" ++ quoted ++
           lit "/, UprightFont=" ++ fontFilename ++ lit ", BoldFont=" ++ bf ++ lit "]\n"
     | none =>
         lit "\\setCJKmainfont\x7b" ++ displayName ++ lit "\x7d[Path=" ++ quoted ++
           lit "/, UprightFont=" ++ fontFilename ++ lit "]\n") ++
    lit "\n"

/-- The geometry option list: one option per provided edge, in the fixed
top, bottom, left, right order, unset edges omitted. -/
def margin_options (m : Margins) : List Str :=
  (match m.top with | some v => [lit "top=" ++ v] | none => []) ++
  (match m.bottom with | some v => [lit "bottom=" ++ v] | none => []) ++
  (match m.left with | some v => [lit "left=" ++ v] | none => []) ++
  (match m.right with | some v => [lit "right=" ++ v] | none => [])

/-- Model of `PreambleManager.generate_preamble` (`renderer/preamble.py`):
document class, font-system packages when a font file is set (excluding the
three superseded baseline packages from the loop), the generic package
loop, the font declaration block, a single geometry directive when any
margin is set, the line-spacing block, then raw custom declarations.  The
line-spacing multiplier is modelled by its printed decimal form. -/
def generate_preamble (fs : FS) (packages : List (Str × Option Str))
    (customCommands : List Str) (margins : Margins) (lineSpacing : Option Str)
    (fontFile : Option Str) (fontName : Option Str) : Str :=
  let useFontspec := fontFile.isSome
  lit "\\documentclass[a4paper]\x7barticle\x7d\n" ++
  (if useFontspec then lit "\\usepackage\x7bfontspec\x7d\n\\usepackage\x7bxeCJK\x7d\n" else []) ++
  packages_latex
    (if useFontspec then [lit "CJKutf8", lit "inputenc", lit "fontenc"] else []) packages ++
  (match fontFile with
   | some ff => if ff.isEmpty then [] else font_settings_latex fs ff fontName
   | none => []) ++
  (if margins.isSet then
     let opts := margin_options margins
     if opts.isEmpty then []
     else lit "\\usepackage[" ++ List.intercalate (lit ",") opts ++ lit "]\x7bgeometry\x7d\n"
   else []) ++
  (match lineSpacing with
   | some ls => lit "\\usepackage\x7bsetspace\x7d\n\\setstretch\x7b" ++ ls ++ lit "\x7d\n"
   | none => []) ++
  (if customCommands.isEmpty then []
   else lit "\n" ++ customCommands.foldr (fun c acc => c ++ acc) [] ++ lit "\n")

/-- Model of `Document` (`core/document.py`): document-level metadata, the
preamble state owned through `preamble_manager`, and the ordered top-level
content list. -/
structure Document where
  title : Option Str
  author : Str
  date : Option Str
  abstract : Option Str
  font : Str
  fontFile : Option Str
  fontName : Option Str
  margins : Margins
  lineSpacing : Option Str
  packages : List (Str × Option Str)
  customCommands : List Str
  content : List Element

/-- Model of `Document.__init__` with the constructor's defaults: the font
display name falls back to the font file's stem, margins default to the
empty map, the preamble starts from the default package map. -/
def Document.init (title : Option Str) (author : Str) (date : Option Str := none)
    (font : Str := lit "min") (margins : Option Margins := none)
    (fontFile : Option Str := none) (fontName : Option Str := none)
    (lineSpacing : Option Str := none) : Document :=
  { title := title, author := author, date := date, abstract := none, font := font,
    fontFile := fontFile,
    fontName :=
      if pyTruthy fontName then fontName
      else if pyTruthy fontFile then some (path_stem (fontFile.getD [])) else none,
    margins := margins.getD {}, lineSpacing := lineSpacing,
    packages := default_packages, customCommands := [], content := [] }

/-- Model of `Document.add`: appends to the ordered top-level list. -/
def Document.add (d : Document) (e : Element) : Document :=
  { d with content := d.content ++ [e] }

/-- Model of `Document.set_abstract`. -/
def Document.set_abstract (d : Document) (a : Str) : Document :=
  { d with abstract := some a }

/-- Model of `LaTeXRenderer._render_title`: empty output for an unset or
empty title, otherwise a centered block with the bolded title, the author
when non-empty, and the date (or `\today` when an author is present). -/
def render_title (d : Document) : Str :=
  if !pyTruthy d.title then []
  else
    lit "\\begin\x7bcenter\x7d\n\x7b\\Large\\bfseries " ++ d.title.getD [] ++
      lit " \x7d\\\\[1em]\n" ++
      (if !d.author.isEmpty then d.author ++ lit " \\\\[0.5em]\n" else []) ++
      (if pyTruthy d.date then d.date.getD [] ++ lit "\n"
       else if !d.author.isEmpty then lit "\\today\n" else []) ++
      lit "\\end\x7bcenter\x7d\n\\vspace\x7b2em\x7d\n\n"

/-- The body loop of `render_document`: each top-level element's output
followed by a newline. -/
def content_latex : List Element → Str
  | [] => []
  | e :: es => e.to_latex ++ lit "\n" ++ content_latex es

/-- Model of `LaTeXRenderer.render_document`: preamble, document
environment, the legacy CJK wrapper when no font file is set, the title
block, the abstract block, the body, and the closing wrappers. -/
def render_document (fs : FS) (d : Document) : Str :=
  generate_preamble fs d.packages d.customCommands d.margins d.lineSpacing
      d.fontFile d.fontName ++
    lit "\n" ++ lit "\\begin\x7bdocument\x7d\n" ++
    (if d.fontFile.isNone then lit "\\begin\x7bCJK\x7d\x7bUTF8\x7d\x7b" ++ d.font ++ lit "\x7d\n"
     else []) ++
    render_title d ++
    (if pyTruthy d.abstract then
       lit "\\begin\x7babstract\x7d\n" ++ d.abstract.getD [] ++ lit "\n\\end\x7babstract\x7d\n\n"
     else []) ++
    content_latex d.content ++
    (if d.fontFile.isNone then lit "\\end\x7bCJK\x7d\n" else []) ++
    lit "\\end\x7bdocument\x7d\n"

/-- Model of `Document.process_fonts`: nothing to do without a truthy font
file; a missing file raises the missing-font error naming the path; else
the font is copied under `fonts/` (byte copy and bold-variant copy are
I/O with no observable effect on the returned data), the document's font
file is repointed at the copy's absolute path, and the relative path is
returned. -/
def Document.process_fonts (fs : FS) (outputDir : Str) (d : Document) :
    Except Str (Option Str × Document) :=
  match d.fontFile with
  | none => .ok (none, d)
  | some ff =>
    if ff.isEmpty then .ok (none, d)
    else if !fs.pathExists ff then
      .error (lit "フォントファイルが見つかりません: " ++ ff)
    else
      let destPath := outputDir ++ lit "/fonts/" ++ path_name ff
      .ok (some (lit "fonts/" ++ path_name ff),
           { d with fontFile := some (fs.absolute destPath) })

/-- The loop of `Document.process_images` over the top-level content list,
with the merged-mapping accumulator. -/
def process_content (fs : FS) (outputDir : Str) (acc : List (Str × Str)) :
    List Element → Except Str (List (Str × Str) × List Element)
  | [] => .ok (acc, [])
  | e :: es =>
      match e.process_resources fs outputDir with
      | .error err => .error err
      | .ok (m, e') =>
        match process_content fs outputDir (rmap_update acc m) es with
        | .error err => .error err
        | .ok (res, es') => .ok (res, e' :: es')

/-- Model of `Document.process_images`: recursively processes every
top-level element, merging the returned path mappings. -/
def Document.process_images (fs : FS) (outputDir : Str) (d : Document) :
    Except Str (List (Str × Str) × Document) :=
  match process_content fs outputDir [] d.content with
  | .error err => .error err
  | .ok (m, content') => .ok (m, { d with content := content' })

/-- The core sequencing of `PDFGenerator.generate`: resource processing
(images, then fonts) strictly precedes serialization, so an error from
either processing step yields no markup. -/
def generate_latex (fs : FS) (outputDir : Str) (d : Document) : Except Str Str :=
  match d.process_images fs outputDir with
  | .error err => .error err
  | .ok (_, d1) =>
    match d1.process_fonts fs outputDir with
    | .error err => .error err
    | .ok (_, d2) => .ok (render_document fs d2)

/-- Model of `DocumentBuilder` state: the document under construction and
the current-section bookkeeping. -/
structure DocumentBuilder where
  document : Document
  currentSection : Option Element

/-- Model of `DocumentBuilder.__init__` with its defaults. -/
def DocumentBuilder.init (title : Option Str := none) (author : Str := [])
    (date : Option Str := none) : DocumentBuilder :=
  { document := Document.init title author date, currentSection := none }

/-- Model of `DocumentBuilder.add_package`. -/
def DocumentBuilder.add_package (b : DocumentBuilder) (pkg : Str)
    (opts : Option Str := none) : DocumentBuilder :=
  { b with document := { b.document with packages := dict_set b.document.packages pkg opts } }

/-- Model of `DocumentBuilder.set_font_file`: raises the missing-font error
at assignment time when the path does not reference an existing file, else
stores the absolute path and the display name (defaulting to the stem). -/
def DocumentBuilder.set_font_file (fs : FS) (b : DocumentBuilder) (fontFile : Str)
    (fontName : Option Str := none) : Except Str DocumentBuilder :=
  if !fs.pathExists fontFile then
    .error (lit "フォントファイルが見つかりません: " ++ fontFile)
  else
    .ok { b with document := { b.document with
            fontFile := some (fs.absolute fontFile),
            fontName := if pyTruthy fontName then fontName else some (path_stem fontFile) } }

/-- Model of `Section.__init__` with the constructor's own defaults
(`level=1`, `label=None`, `numbered=True`). -/
def section_init (title : Str) (level : Int := 1) (label : Option Str := none)
    (numbered : Bool := true) : Element :=
  .sect title level label numbered .nil

/-- Model of `DocumentBuilder.add_section` with its defaults (`level=1`,
`label=None`, `numbered=False`): constructs the section, attaches it to the
document, records it as current, and hands it to the section scope. -/
def DocumentBuilder.add_section (b : DocumentBuilder) (title : Str) (level : Int := 1)
    (label : Option Str := none) (numbered : Bool := false) :
    DocumentBuilder × Element :=
  let s : Element := .sect title level label numbered .nil
  ({ b with document := b.document.add s, currentSection := some s }, s)

/-- Model of `DocumentBuilder.add_exercise`: registers the multi-column
package when the column count exceeds one, then attaches a fresh exercise
element to the document. -/
def DocumentBuilder.add_exercise (b : DocumentBuilder) (title content : Str)
    (items : Option (List Str) := none) (columns : Int := 1) : DocumentBuilder :=
  let b1 := if columns > 1 then b.add_package (lit "multicol") else b
  let ex : Element := .exercise title content (items.getD []) columns .nil
  { b1 with document := b1.document.add ex }

/-- Object-heap view of the element tree used for the ownership invariant:
nodes are identified by ids carrying the `parent` back-reference and the
ordered `children` id list of `LaTeXElement`. -/
structure NodeState where
  parent : Option Nat
  children : List Nat

/-- The empty heap: fresh elements with no parent and no children. -/
def heap0 : Nat → NodeState := fun _ => { parent := none, children := [] }

/-- Model of `LaTeXElement.add(element)` at ids `p` (the container) and `c`
(the child): sets the child's parent back-reference and appends the child
to the container's ordered list; nothing is removed anywhere. -/
def add_child (h : Nat → NodeState) (p c : Nat) : Nat → NodeState :=
  fun i =>
    let s := h i
    let s1 := if i = c then { s with parent := some p } else s
    if i = p then { s1 with children := s1.children ++ [c] } else s1

/-- Runs a sequence of add-child operations (`(parent, child)` pairs) in
order. -/
def run_adds (h : Nat → NodeState) : List (Nat × Nat) → (Nat → NodeState)
  | [] => h
  | (p, c) :: ops => run_adds (add_child h p c) ops

/-- Number of occurrences of a needle in a string: the number of start
positions at which the needle is a prefix of the remaining suffix. -/
def countOcc (needle s : Str) : Nat :=
  ((List.range (s.length + 1)).filter (fun i => decide (needle <+: s.drop i))).length

/-- Unfolding lemma: replacing a single-character needle acts independently
on every character (Python `str.replace` with a one-character needle). -/
theorem str_replace_go_singleton (c : Char) (r : Str) :
    ∀ (fuel : Nat) (s : Str), s.length ≤ fuel →
      str_replace_go fuel s [c] r = s.flatMap (fun a => if a = c then r else [a]) := by
  intro fuel
  induction fuel with
  | zero =>
    intro s hs
    have hnil : s = [] := List.eq_nil_of_length_eq_zero (Nat.le_zero.mp hs)
    subst hnil
    rfl
  | succ n ih =>
    intro s hs
    match s with
    | [] => rfl
    | a :: as =>
      have hs' : as.length ≤ n := by
        simp only [List.length_cons] at hs
        omega
      rw [List.flatMap_cons]
      by_cases hac : a = c
      · subst hac
        have hpre : ([a] ≠ [] ∧ [a] <+: a :: as) := ⟨by simp, ⟨as, rfl⟩⟩
        rw [str_replace_go, if_pos hpre]
        have hdrop : (a :: as).drop [a].length = as := rfl
        rw [hdrop, ih as hs', if_pos rfl]
      · have hnpre : ¬([c] ≠ [] ∧ [c] <+: a :: as) := by
          rintro ⟨-, hp⟩
          exact hac ((List.cons_prefix_cons.mp hp).1).symm
        rw [str_replace_go, if_neg hnpre, if_neg hac, ih as hs']
        rfl

/-- Replacing a single-character needle is the characterwise map-concat. -/
theorem str_replace_singleton (s : Str) (c : Char) (r : Str) :
    str_replace s [c] r = s.flatMap (fun a => if a = c then r else [a]) :=
  str_replace_go_singleton c r s.length s le_rfl

/-- The escaping function acts independently on each character: braces
receive a backslash prefix, everything else passes through. -/
theorem escape_eq_flatMap (s : Str) :
    escape_latex_special_chars s = s.flatMap escChar := by
  unfold escape_latex_special_chars
  rw [show lit "\x7b" = ['{'] from rfl, show lit "\x7d" = ['}'] from rfl,
    str_replace_singleton, str_replace_singleton, List.flatMap_assoc]
  apply List.flatMap_congr
  intro a _
  by_cases h1 : a = '{'
  · subst h1
    rfl
  · by_cases h2 : a = '}'
    · subst h2
      rfl
    · simp [escChar, h1, h2]

/-- The escaped form of a string never starts with a bare brace: every
emitted brace is immediately preceded by a backslash. -/
theorem escape_head_not_brace (s : Str) :
    s.flatMap escChar = [] ∨
      ∃ b rest, s.flatMap escChar = b :: rest ∧ b ≠ '{' ∧ b ≠ '}' := by
  match s with
  | [] => exact Or.inl rfl
  | a :: as =>
    right
    rw [List.flatMap_cons]
    by_cases h1 : a = '{'
    · subst h1
      exact ⟨'\\', _, rfl, by decide, by decide⟩
    · by_cases h2 : a = '}'
      · subst h2
        exact ⟨'\\', _, rfl, by decide, by decide⟩
      · have he : escChar a = [a] := by simp [escChar, h1, h2]
        rw [he]
        exact ⟨a, as.flatMap escChar, rfl, h1, h2⟩

/-- With no brace at the head of the remaining input, a pending backslash
cannot complete a pair, so the scanner state is irrelevant. -/
theorem countEBP_go_true_eq (X : Str)
    (h : X = [] ∨ ∃ b rest, X = b :: rest ∧ b ≠ '{' ∧ b ≠ '}') :
    countEBP_go true X = countEBP_go false X := by
  rcases h with h | ⟨b, rest, hX, h1, h2⟩
  · subst h
    rfl
  · subst hX
    simp only [countEBP_go]
    rw [if_neg (by simp [h1, h2]), if_neg (by simp)]

/-- Escaping turns every input brace into exactly one escaped pair and
creates no other pair. -/
theorem countEBP_flatMap (s : Str) :
    countEBP_go false (s.flatMap escChar) = countBraces s := by
  induction s with
  | nil => rfl
  | cons a as ih =>
    rw [List.flatMap_cons]
    by_cases h1 : a = '{'
    · subst h1
      have hstep : countEBP_go false (escChar '{' ++ as.flatMap escChar) =
          1 + countEBP_go false (as.flatMap escChar) := by
        show countEBP_go false ('\\' :: '{' :: as.flatMap escChar) = _
        simp [countEBP_go]
      rw [hstep, ih]
      simp [countBraces, List.countP_cons]
      omega
    · by_cases h2 : a = '}'
      · subst h2
        have hstep : countEBP_go false (escChar '}' ++ as.flatMap escChar) =
            1 + countEBP_go false (as.flatMap escChar) := by
          show countEBP_go false ('\\' :: '}' :: as.flatMap escChar) = _
          simp [countEBP_go]
        rw [hstep, ih]
        simp [countBraces, List.countP_cons]
        omega
      · have he : escChar a = [a] := by simp [escChar, h1, h2]
        rw [he]
        have hstep : countEBP_go false (a :: as.flatMap escChar) =
            countEBP_go (decide (a = '\\')) (as.flatMap escChar) := by
          simp [countEBP_go]
        rw [List.singleton_append, hstep]
        by_cases hb : a = '\\'
        · subst hb
          rw [show decide (('\\' : Char) = '\\') = true from by decide]
          rw [countEBP_go_true_eq _ (escape_head_not_brace as), ih]
          simp [countBraces, List.countP_cons]
        · rw [show decide (a = '\\') = false from by simp [hb], ih]
          simp [countBraces, List.countP_cons, h1, h2]

/-- C3: label-profile escaping replaces each of the two brace characters
with its backslash-prefixed form and leaves every other character
(including backslashes) unchanged; consequently the escaped-brace-pair
count of the output equals the brace count of the input (no braces lost or
merged). -/
theorem c3_escape_brace_exact (s : Str) :
    escape_latex_special_chars s = s.flatMap escChar ∧
      countEscapedBracePairs (escape_latex_special_chars s) = countBraces s := by
  refine ⟨escape_eq_flatMap s, ?_⟩
  rw [escape_eq_flatMap s]
  exact countEBP_flatMap s

/-- Decomposition of an occurrence inside an append: it lies in the left
part, in the right part, or spans the boundary as a nonempty suffix of the
left part followed by a nonempty prefix of the right part. -/
theorem infix_append_split {p a b : List Char} (h : p <:+: a ++ b) :
    p <:+: a ∨ p <:+: b ∨
      ∃ p1 p2, p = p1 ++ p2 ∧ p1 ≠ [] ∧ p2 ≠ [] ∧ p1 <:+ a ∧ p2 <+: b := by
  obtain ⟨s, t, hst⟩ := h
  rw [List.append_assoc] at hst
  rcases List.append_eq_append_iff.mp hst with ⟨a', hc, hb⟩ | ⟨c', ha, hd⟩
  · rcases List.append_eq_append_iff.mp hb with ⟨u, hc2, -⟩ | ⟨v, hp2, hd2⟩
    · refine Or.inl ⟨s, u, ?_⟩
      rw [hc, hc2, List.append_assoc]
    · by_cases hn1 : a' = []
      · subst hn1
        rw [List.nil_append] at hp2
        exact Or.inr (Or.inl (show p <+: b from ⟨t, by rw [hp2, hd2]⟩).isInfix)
      · by_cases hn2 : v = []
        · subst hn2
          rw [List.append_nil] at hp2
          exact Or.inl (show p <:+ a from ⟨s, by rw [hp2, hc]⟩).isInfix
        · exact Or.inr (Or.inr ⟨a', v, hp2, hn1, hn2, ⟨s, hc.symm⟩, ⟨t, hd2.symm⟩⟩)
  · refine Or.inr (Or.inl ⟨c', t, ?_⟩)
    rw [hd, List.append_assoc]

/-- No occurrence can exist in `a ++ b` when there is none in each part and
no nonempty proper prefix of the pattern is a suffix of the left part. -/
theorem not_infix_append_left {p a b : List Char} (h0 : ¬ p <:+: a) (hb : ¬ p <:+: b)
    (hspan : ∀ k, k < p.length → 0 < k → ¬ ((p.take k) <:+ a)) : ¬ p <:+: a ++ b := by
  intro h
  rcases infix_append_split h with h | h | ⟨p1, p2, hp, h1, h2, hsuf, -⟩
  · exact h0 h
  · exact hb h
  · have htake : p.take p1.length = p1 := by
      rw [hp]
      exact List.take_left p1 p2
    have hlen : p1.length < p.length := by
      rw [hp, List.length_append]
      have := List.length_pos.mpr h2
      omega
    exact hspan p1.length hlen (List.length_pos.mpr h1) (by rw [htake]; exact hsuf)

/-- No occurrence can exist in `a ++ (l :: z)` when there is none in each
part and the boundary character `l` does not occur in the pattern. -/
theorem not_infix_append_cons {p a z : List Char} {l : Char} (ha : ¬ p <:+: a)
    (hz : ¬ p <:+: l :: z) (hl : l ∉ p) : ¬ p <:+: a ++ (l :: z) := by
  intro h
  rcases infix_append_split h with h | h | ⟨p1, p2, hp, -, h2, -, hpre⟩
  · exact ha h
  · exact hz h
  · rcases p2 with _ | ⟨x, p2'⟩
    · exact h2 rfl
    · apply hl
      rw [hp, ← (List.cons_prefix_cons.mp hpre).1]
      exact List.mem_append_right p1 (List.mem_cons_self x p2')

/-- A backslash-free pattern that prefixes an escaped string prefixes the
original string. -/
theorem prefix_escape_elim : ∀ (t : Str) (p : List Char), '\\' ∉ p →
    p <+: t.flatMap escChar → p <+: t := by
  intro t
  induction t with
  | nil =>
    intro p hb h
    simpa using h
  | cons c cs ih =>
    intro p hb h
    rcases p with _ | ⟨x, p'⟩
    · exact List.nil_prefix
    · rw [List.flatMap_cons] at h
      by_cases h1 : c = '{'
      · subst h1
        refine absurd ?_ hb
        rw [← (List.cons_prefix_cons.mp h).1]
        exact List.mem_cons_self x p'
      · by_cases h2 : c = '}'
        · subst h2
          refine absurd ?_ hb
          rw [← (List.cons_prefix_cons.mp h).1]
          exact List.mem_cons_self x p'
        · have he : escChar c = [c] := by simp [escChar, h1, h2]
          rw [he, List.singleton_append] at h
          obtain ⟨hx, hp'⟩ := List.cons_prefix_cons.mp h
          subst hx
          refine List.cons_prefix_cons.mpr ⟨rfl, ih p' ?_ hp'⟩
          intro hm
          exact hb (List.mem_cons_of_mem _ hm)

/-- A pattern free of backslashes and braces that occurs inside an escaped
string occurs inside the original string. -/
theorem infix_escape_elim : ∀ (t : Str) (p : List Char), '\\' ∉ p → '{' ∉ p → '}' ∉ p →
    p <:+: t.flatMap escChar → p <:+: t := by
  intro t
  induction t with
  | nil =>
    intro p _ _ _ h
    simpa using h
  | cons c cs ih =>
    intro p hb hbr1 hbr2 h
    rw [List.flatMap_cons] at h
    by_cases h1 : c = '{'
    · subst h1
      rcases List.infix_cons_iff.mp h with hpre | h'
      · rcases p with _ | ⟨x, p'⟩
        · exact ⟨[], '{' :: cs, rfl⟩
        · refine absurd ?_ hb
          rw [← (List.cons_prefix_cons.mp hpre).1]
          exact List.mem_cons_self x p'
      · rcases List.infix_cons_iff.mp h' with hpre | h''
        · rcases p with _ | ⟨x, p'⟩
          · exact ⟨[], '{' :: cs, rfl⟩
          · refine absurd ?_ hbr1
            rw [← (List.cons_prefix_cons.mp hpre).1]
            exact List.mem_cons_self x p'
        · exact List.infix_cons (ih p hb hbr1 hbr2 h'')
    · by_cases h2 : c = '}'
      · subst h2
        rcases List.infix_cons_iff.mp h with hpre | h'
        · rcases p with _ | ⟨x, p'⟩
          · exact ⟨[], '}' :: cs, rfl⟩
          · refine absurd ?_ hb
            rw [← (List.cons_prefix_cons.mp hpre).1]
            exact List.mem_cons_self x p'
        · rcases List.infix_cons_iff.mp h' with hpre | h''
          · rcases p with _ | ⟨x, p'⟩
            · exact ⟨[], '}' :: cs, rfl⟩
            · refine absurd ?_ hbr2
              rw [← (List.cons_prefix_cons.mp hpre).1]
              exact List.mem_cons_self x p'
          · exact List.infix_cons (ih p hb hbr1 hbr2 h'')
      · have he : escChar c = [c] := by simp [escChar, h1, h2]
        rw [he, List.singleton_append] at h
        rcases List.infix_cons_iff.mp h with hpre | h'
        · rcases p with _ | ⟨x, p'⟩
          · exact ⟨[], c :: cs, rfl⟩
          · obtain ⟨hx, hp'⟩ := List.cons_prefix_cons.mp hpre
            subst hx
            refine (List.cons_prefix_cons.mpr ⟨rfl, prefix_escape_elim cs p' ?_ hp'⟩).isInfix
            intro hm
            exact hb (List.mem_cons_of_mem _ hm)
        · exact List.infix_cons (ih p hb hbr1 hbr2 h')

/-- An occurrence in the right part is an occurrence in the append. -/
theorem infix_append_right_of {p m : List Char} (a : List Char) (h : p <:+: m) :
    p <:+: a ++ m :=
  h.trans ⟨a, [], by simp⟩

/-- A prefix of the left part occurs in the append. -/
theorem infix_of_prefix_append {p m t : List Char} (h : p <+: m) : p <:+: m ++ t :=
  (h.trans (List.prefix_append m t)).isInfix

/-- A pattern whose head differs from the head of a cons and which does not
occur in the tail does not occur in the cons. -/
theorem not_infix_cons_head {p z : List Char} {l : Char} (hne : p ≠ []) (hl : l ∉ p)
    (hz : ¬ p <:+: z) : ¬ p <:+: l :: z := by
  intro h
  rcases List.infix_cons_iff.mp h with h | h
  · rcases p with _ | ⟨x, p'⟩
    · exact hne rfl
    · apply hl
      rw [← (List.cons_prefix_cons.mp h).1]
      exact List.mem_cons_self x p'
  · exact hz h

/-- The multi-column marker does not survive escaping removal: it cannot
occur in an escaped title whose original had no occurrence. -/
theorem escape_no_multicols {title : Str} (ht : ¬ lit "multicols" <:+: title) :
    ¬ lit "multicols" <:+: escape_latex_special_chars title := by
  rw [escape_eq_flatMap]
  intro h
  exact ht (infix_escape_elim title (lit "multicols") (by decide) (by decide) (by decide) h)

/-- The item loop introduces no multi-column marker when no item carries
one. -/
theorem item_lines_no_multicols : ∀ (items : List Str) (z : Str),
    (∀ it ∈ items, ¬ lit "multicols" <:+: it) → (¬ lit "multicols" <:+: z) →
    ¬ lit "multicols" <:+: item_lines items ++ z := by
  intro items
  induction items with
  | nil =>
    intro z _ hz
    simpa [item_lines] using hz
  | cons it its ih =>
    intro z hi hz
    have hit : ¬ lit "multicols" <:+: it := hi it (List.mem_cons_self it its)
    have hits : ∀ x ∈ its, ¬ lit "multicols" <:+: x := fun x hx =>
      hi x (List.mem_cons_of_mem it hx)
    show ¬ lit "multicols" <:+: (lit "  \\item " ++ it ++ lit "\n" ++ item_lines its) ++ z
    simp only [List.append_assoc]
    apply not_infix_append_left (by decide) ?hrest (by decide)
    case hrest =>
      show ¬ lit "multicols" <:+: it ++ ('\n' :: (item_lines its ++ z))
      apply not_infix_append_cons hit ?hz (by decide)
      case hz =>
        exact not_infix_cons_head (by decide) (by decide) (ih z hits hz)

/-- Looking up a freshly assigned key returns the assigned value. -/
theorem dict_lookup_set (d : List (Str × Option Str)) (k : Str) (v : Option Str) :
    dict_lookup (dict_set d k v) k = some v := by
  induction d with
  | nil => simp [dict_set, dict_lookup]
  | cons kv rest ih =>
    obtain ⟨k', v'⟩ := kv
    by_cases h : k' = k
    · simp [dict_set, dict_lookup, h]
    · simp [dict_set, dict_lookup, h]
      exact ih

/-- C2: an Exercise built with `columns=1` emits no multi-column region
(for inputs that do not themselves inject the multi-column marker, per the
pass-through contract of §4.3); with `columns=2` and a non-empty item list
the rendered output wraps the items in a multi-column region of count 2;
and building one through the builder with `columns=2` registers the
`multicol` package in the document's preamble package map. -/
theorem c2_exercise_multicols (b : DocumentBuilder) (title content : Str)
    (items : List Str)
    (ht : ¬ lit "multicols" <:+: title) (hc : ¬ lit "multicols" <:+: content)
    (hi : ∀ it ∈ items, ¬ lit "multicols" <:+: it) :
    (¬ lit "multicols" <:+: (Element.exercise title content items 1 .nil).to_latex) ∧
    (items ≠ [] →
      lit "\\begin\x7bmulticols\x7d\x7b2\x7d" <:+:
        (Element.exercise title content items 2 .nil).to_latex) ∧
    dict_lookup (b.add_exercise title content (some items) 2).document.packages
        (lit "multicol") = some none := by
  refine ⟨?part1, ?part2, ?part3⟩
  case part3 =>
    simp only [DocumentBuilder.add_exercise, DocumentBuilder.add_package, Document.add,
      if_pos (show (2 : Int) > 1 by norm_num)]
    exact dict_lookup_set b.document.packages (lit "multicol") none
  case part2 =>
    intro hne
    have hie : items.isEmpty = false := by
      rcases items with _ | ⟨x, xs⟩
      · exact absurd rfl hne
      · rfl
    have hform : (Element.exercise title content items 2 .nil).to_latex =
        lit "\\noindent\n\\textbf\x7b" ++ (escape_latex_special_chars title ++
          (lit "\x7d\\quad " ++ (content ++ (lit "\n" ++ (lit "\\vspace\x7b-1.5em\x7d\n" ++
          ((lit "\\begin\x7bmulticols\x7d\x7b" ++ (toString (2 : Int)).data ++ lit "\x7d\n") ++
          (lit "\\begin\x7benumerate\x7d\n  \\renewcommand\x7b\\labelenumi\x7d\x7b(\\arabic\x7benumi\x7d)\x7d\n" ++
          (item_lines items ++ (lit "\\end\x7benumerate\x7d\n" ++ (lit "\\end\x7bmulticols\x7d\n" ++
          lit "\\par\n\\vspace\x7b0.5em\x7d\n")))))))))) := by
      simp only [Element.to_latex, children_post, hie, Bool.false_eq_true, if_false,
        if_pos (show (2 : Int) > 1 by norm_num), List.append_assoc, List.append_nil,
        List.nil_append]
    rw [hform]
    apply infix_append_right_of
    apply infix_append_right_of
    apply infix_append_right_of
    apply infix_append_right_of
    apply infix_append_right_of
    apply infix_append_right_of
    exact infix_of_prefix_append (by decide)
  case part1 =>
    by_cases hne : items = []
    · subst hne
      have hform : (Element.exercise title content [] 1 .nil).to_latex =
          lit "\\noindent\n\\textbf\x7b" ++ (escape_latex_special_chars title ++
            (lit "\x7d\\quad " ++ (content ++
            (lit "\n" ++ lit "\\par\n\\vspace\x7b0.5em\x7d\n")))) := by
        simp only [Element.to_latex, children_post, List.isEmpty_nil, if_true,
          List.append_assoc, List.append_nil, List.nil_append]
      rw [hform]
      apply not_infix_append_left (by decide) ?e1 (by decide)
      case e1 =>
        show ¬ lit "multicols" <:+: escape_latex_special_chars title ++
          ('}' :: (lit "\\quad " ++ (content ++ (lit "\n" ++ lit "\\par\n\\vspace\x7b0.5em\x7d\n"))))
        apply not_infix_append_cons (escape_no_multicols ht) ?e2 (by decide)
        case e2 =>
          apply not_infix_cons_head (by decide) (by decide) ?e3
          case e3 =>
            apply not_infix_append_left (by decide) ?e4 (by decide)
            case e4 =>
              show ¬ lit "multicols" <:+: content ++
                ('\n' :: lit "\\par\n\\vspace\x7b0.5em\x7d\n")
              exact not_infix_append_cons hc (by decide) (by decide)
    · have hie : items.isEmpty = false := by
        rcases items with _ | ⟨x, xs⟩
        · exact absurd rfl hne
        · rfl
      have hform : (Element.exercise title content items 1 .nil).to_latex =
          lit "\\noindent\n\\textbf\x7b" ++ (escape_latex_special_chars title ++
            (lit "\x7d\\quad " ++ (content ++ (lit "\n" ++ (lit "\\vspace\x7b-1.5em\x7d\n" ++
            (lit "\\begin\x7benumerate\x7d\n  \\renewcommand\x7b\\labelenumi\x7d\x7b(\\arabic\x7benumi\x7d)\x7d\n" ++
            (item_lines items ++ (lit "\\end\x7benumerate\x7d\n" ++
            lit "\\par\n\\vspace\x7b0.5em\x7d\n")))))))) := by
        simp only [Element.to_latex, children_post, hie, Bool.false_eq_true, if_false,
          if_neg (show ¬((1 : Int) > 1) by norm_num), List.append_assoc, List.append_nil,
          List.nil_append]
      rw [hform]
      apply not_infix_append_left (by decide) ?f1 (by decide)
      case f1 =>
        show ¬ lit "multicols" <:+: escape_latex_special_chars title ++
          ('}' :: (lit "\\quad " ++ (content ++ (lit "\n" ++ (lit "\\vspace\x7b-1.5em\x7d\n" ++
          (lit "\\begin\x7benumerate\x7d\n  \\renewcommand\x7b\\labelenumi\x7d\x7b(\\arabic\x7benumi\x7d)\x7d\n" ++
          (item_lines items ++ (lit "\\end\x7benumerate\x7d\n" ++
          lit "\\par\n\\vspace\x7b0.5em\x7d\n"))))))))
        apply not_infix_append_cons (escape_no_multicols ht) ?f2 (by decide)
        case f2 =>
          apply not_infix_cons_head (by decide) (by decide) ?f3
          case f3 =>
            apply not_infix_append_left (by decide) ?f4 (by decide)
            case f4 =>
              show ¬ lit "multicols" <:+: content ++
                ('\n' :: (lit "\\vspace\x7b-1.5em\x7d\n" ++
                (lit "\\begin\x7benumerate\x7d\n  \\renewcommand\x7b\\labelenumi\x7d\x7b(\\arabic\x7benumi\x7d)\x7d\n" ++
                (item_lines items ++ (lit "\\end\x7benumerate\x7d\n" ++
                lit "\\par\n\\vspace\x7b0.5em\x7d\n")))))
              apply not_infix_append_cons hc ?f5 (by decide)
              case f5 =>
                apply not_infix_cons_head (by decide) (by decide) ?f6
                case f6 =>
                  apply not_infix_append_left (by decide) ?f7 (by decide)
                  case f7 =>
                    apply not_infix_append_left (by decide) ?f8 (by decide)
                    case f8 =>
                      exact item_lines_no_multicols items _ hi (by decide)

/-- Claim-side description of the level-to-command mapping (spec §4.4):
the five structural commands in decreasing weight for levels 1 through 5,
every other level degrading to the top-level command. -/
def spec_section_command (level : Int) : Str :=
  if level = 1 then lit "\\section"
  else if level = 2 then lit "\\subsection"
  else if level = 3 then lit "\\subsubsection"
  else if level = 4 then lit "\\paragraph"
  else if level = 5 then lit "\\subparagraph"
  else lit "\\section"

/-- The source's dictionary lookup with default agrees with the claim-side
mapping, star suffix included. -/
theorem section_command_eq_spec (level : Int) (numbered : Bool) :
    section_command level numbered =
      spec_section_command level ++ (if numbered then [] else lit "*") := by
  unfold section_command spec_section_command
  by_cases h1 : level = 1
  · subst h1
    rfl
  · by_cases h2 : level = 2
    · subst h2
      rfl
    · by_cases h3 : level = 3
      · subst h3
        rfl
      · by_cases h4 : level = 4
        · subst h4
          rfl
        · by_cases h5 : level = 5
          · subst h5
            rfl
          · have hb1 : (level == 1) = false := beq_eq_false_iff_ne.mpr h1
            have hb2 : (level == 2) = false := beq_eq_false_iff_ne.mpr h2
            have hb3 : (level == 3) = false := beq_eq_false_iff_ne.mpr h3
            have hb4 : (level == 4) = false := beq_eq_false_iff_ne.mpr h4
            have hb5 : (level == 5) = false := beq_eq_false_iff_ne.mpr h5
            have hl : section_commands.lookup level = none := by
              simp only [section_commands, List.lookup, hb1, hb2, hb3, hb4, hb5]
            rw [hl]
            simp [h1, h2, h3, h4, h5]

/-- C4: the rendered structural command of a Section is determined by its
level — levels 1 through 5 map to the five command severities in
decreasing weight, any level outside 1..5 degrades to the top-level
command instead of raising — and the command carries the starred suffix
exactly when the numbered flag is false. -/
theorem c4_section_level_mapping (title : Str) (level : Int) (label : Option Str)
    (numbered : Bool) (children : ElementList) :
    (∃ rest, (Element.sect title level label numbered children).to_latex =
        spec_section_command level ++ (if numbered then [] else lit "*") ++
          (lit "\x7b" ++ title ++ lit "\x7d\n") ++ rest) ∧
    ((level < 1 ∨ 5 < level) → spec_section_command level = lit "\\section") := by
  constructor
  · refine ⟨(match label with
      | some lab => lit "\\label\x7b" ++ lab ++ lit "\x7d\n"
      | none => []) ++ lit "\n" ++ children_post children, ?_⟩
    simp only [Element.to_latex, section_command_eq_spec, List.append_assoc]
  · intro h
    unfold spec_section_command
    rw [if_neg (by omega), if_neg (by omega), if_neg (by omega), if_neg (by omega),
      if_neg (by omega)]

/-- Witness for C4 at the out-of-range level 9 with the numbered flag set. -/
theorem c4_section_level_mapping_witness :
    (∃ rest, (Element.sect (lit "T") 9 none true .nil).to_latex =
        spec_section_command 9 ++ (if true then [] else lit "*") ++
          (lit "\x7b" ++ lit "T" ++ lit "\x7d\n") ++ rest) ∧
    spec_section_command 9 = lit "\\section" := by
  obtain ⟨h1, h2⟩ := c4_section_level_mapping (lit "T") 9 none true .nil
  exact ⟨h1, h2 (Or.inr (by decide))⟩

/-- C10: a section created through the builder's `add_section` without an
explicit numbered argument gets `numbered=False` — while the Section
constructor's own default is `numbered=True` — and therefore renders the
starred, non-numbered form of the structural command. -/
theorem c10_add_section_default_unnumbered (b : DocumentBuilder) (title : Str) :
    (b.add_section title).2 = Element.sect title 1 none false .nil ∧
    section_init title = Element.sect title 1 none true .nil ∧
    (lit "\\section*\x7b" ++ title ++ lit "\x7d\n") <+:
      ((b.add_section title).2).to_latex := by
  refine ⟨rfl, rfl, ⟨lit "\n" ++ children_post .nil, ?_⟩⟩
  show lit "\\section*\x7b" ++ title ++ lit "\x7d\n" ++ (lit "\n" ++ children_post .nil) =
    (Element.sect title 1 none false .nil).to_latex
  have hcmd : section_command 1 false = lit "\\section" ++ lit "*" := by decide
  have hlit : lit "\\section*\x7b" = lit "\\section" ++ lit "*" ++ lit "\x7b" := by decide
  simp only [Element.to_latex, hcmd, hlit, List.append_assoc, List.nil_append]

/-- C1 counterexample: rendering a Document whose title is set to the
non-empty string "T" emits an automatic centered title block containing
the title, so the title-block step of the renderer is not a no-op. -/
theorem c1_title_block_counterexample :
    (lit "\x7b\\Large\\bfseries T \x7d") <:+:
      render_document fsEmpty (Document.init (some (lit "T")) []) ∧
    render_title (Document.init (some (lit "T")) []) ≠ [] := by
  constructor
  · decide
  · decide

/-- C1 amended: the title-block step emits a centered block containing the
title whenever the title is set to a non-empty string, and emits nothing
exactly when the title is unset or empty. -/
theorem c1_title_block_amended (fs : FS) (d : Document) :
    (pyTruthy d.title = false → render_title d = []) ∧
    (∀ t, d.title = some t → t ≠ [] →
      (lit "\x7b\\Large\\bfseries " ++ t ++ lit " \x7d") <:+: render_document fs d) := by
  constructor
  · intro h
    simp [render_title, h]
  · intro t ht hne
    have htr : pyTruthy d.title = true := by
      rw [ht]
      rcases t with _ | ⟨c, cs⟩
      · exact absurd rfl hne
      · rfl
    have hrt : (lit "\x7b\\Large\\bfseries " ++ t ++ lit " \x7d") <:+: render_title d := by
      have hsplit1 : lit "\\begin\x7bcenter\x7d\n\x7b\\Large\\bfseries " =
          lit "\\begin\x7bcenter\x7d\n" ++ lit "\x7b\\Large\\bfseries " := by decide
      have hsplit2 : lit " \x7d\\\\[1em]\n" = lit " \x7d" ++ lit "\\\\[1em]\n" := by decide
      have hgd : d.title.getD [] = t := by
        rw [ht]
        rfl
      have hr : render_title d =
          lit "\\begin\x7bcenter\x7d\n" ++ ((lit "\x7b\\Large\\bfseries " ++ t ++ lit " \x7d") ++
            (lit "\\\\[1em]\n" ++
            ((if !d.author.isEmpty then d.author ++ lit " \\\\[0.5em]\n" else []) ++
            ((if pyTruthy d.date then d.date.getD [] ++ lit "\n"
              else if !d.author.isEmpty then lit "\\today\n" else []) ++
            lit "\\end\x7bcenter\x7d\n\\vspace\x7b2em\x7d\n\n")))) := by
        simp only [render_title, htr, Bool.not_true, Bool.false_eq_true, if_false, hgd,
          hsplit1, hsplit2, List.append_assoc]
      rw [hr]
      exact infix_append_right_of _ ((List.prefix_append _ _).isInfix)
    have hseg : render_title d <:+: render_document fs d := by
      unfold render_document
      refine ⟨generate_preamble fs d.packages d.customCommands d.margins d.lineSpacing
          d.fontFile d.fontName ++ lit "\n" ++ lit "\\begin\x7bdocument\x7d\n" ++
          (if d.fontFile.isNone then lit "\\begin\x7bCJK\x7d\x7bUTF8\x7d\x7b" ++ d.font ++ lit "\x7d\n"
           else []),
        (if pyTruthy d.abstract then
           lit "\\begin\x7babstract\x7d\n" ++ d.abstract.getD [] ++ lit "\n\\end\x7babstract\x7d\n\n"
         else []) ++ content_latex d.content ++
          (if d.fontFile.isNone then lit "\\end\x7bCJK\x7d\n" else []) ++
          lit "\\end\x7bdocument\x7d\n", ?_⟩
      simp only [List.append_assoc]
    exact hrt.trans hseg

/-- Witness for the amended C1 at a concrete untitled document and a
concrete document titled "T". -/
theorem c1_title_block_amended_witness :
    render_title (Document.init none []) = [] ∧
    (lit "\x7b\\Large\\bfseries " ++ lit "T" ++ lit " \x7d") <:+:
      render_document fsEmpty (Document.init (some (lit "T")) []) := by
  constructor
  · exact (c1_title_block_amended fsEmpty (Document.init none [])).1 (by decide)
  · exact (c1_title_block_amended fsEmpty (Document.init (some (lit "T")) [])).2
      (lit "T") rfl (by decide)

/-- C5: for a Document whose margin map sets `top=2cm` and `left=3cm` and
leaves bottom and right unset (with the builder-fresh preamble state and no
font or line-spacing settings), the generated preamble contains exactly one
geometry directive, its option list is exactly `top=2cm,left=3cm`, and no
bottom or right key appears anywhere. -/
theorem c5_margins_single_geometry (fs : FS) (d : Document)
    (hm : d.margins = { top := some (lit "2cm"), left := some (lit "3cm") })
    (hp : d.packages = default_packages) (hcc : d.customCommands = [])
    (hf : d.fontFile = none) (hls : d.lineSpacing = none) :
    countOcc (lit "\x7bgeometry\x7d")
      (generate_preamble fs d.packages d.customCommands d.margins d.lineSpacing
        d.fontFile d.fontName) = 1 ∧
    (lit "\\usepackage[top=2cm,left=3cm]\x7bgeometry\x7d\n") <:+:
      generate_preamble fs d.packages d.customCommands d.margins d.lineSpacing
        d.fontFile d.fontName ∧
    ¬ (lit "bottom=") <:+:
      generate_preamble fs d.packages d.customCommands d.margins d.lineSpacing
        d.fontFile d.fontName ∧
    ¬ (lit "right=") <:+:
      generate_preamble fs d.packages d.customCommands d.margins d.lineSpacing
        d.fontFile d.fontName := by
  rw [hm, hp, hcc, hf, hls]
  have hpre : generate_preamble fs default_packages []
      { top := some (lit "2cm"), left := some (lit "3cm") } none none d.fontName =
      generate_preamble fsEmpty default_packages []
        { top := some (lit "2cm"), left := some (lit "3cm") } none none none := rfl
  rw [hpre]
  exact ⟨by decide, by decide, by decide, by decide⟩

/-- Witness for C5 at a concrete freshly built document with those two
margins. -/
theorem c5_margins_single_geometry_witness :
    countOcc (lit "\x7bgeometry\x7d")
      (generate_preamble fsEmpty
        (Document.init (some (lit "T")) [] none (lit "min")
          (some { top := some (lit "2cm"), left := some (lit "3cm") })).packages
        (Document.init (some (lit "T")) [] none (lit "min")
          (some { top := some (lit "2cm"), left := some (lit "3cm") })).customCommands
        (Document.init (some (lit "T")) [] none (lit "min")
          (some { top := some (lit "2cm"), left := some (lit "3cm") })).margins
        (Document.init (some (lit "T")) [] none (lit "min")
          (some { top := some (lit "2cm"), left := some (lit "3cm") })).lineSpacing
        (Document.init (some (lit "T")) [] none (lit "min")
          (some { top := some (lit "2cm"), left := some (lit "3cm") })).fontFile
        (Document.init (some (lit "T")) [] none (lit "min")
          (some { top := some (lit "2cm"), left := some (lit "3cm") })).fontName) = 1 :=
  (c5_margins_single_geometry fsEmpty
    (Document.init (some (lit "T")) [] none (lit "min")
      (some { top := some (lit "2cm"), left := some (lit "3cm") }))
    rfl rfl rfl rfl rfl).1

/-- Resource processing leaves every document field except the content list
unchanged; in particular, the configured font file survives the image
pass. -/
theorem process_images_fontFile (fs : FS) (o : Str) (d : Document)
    (m : List (Str × Str)) (d1 : Document)
    (h : d.process_images fs o = .ok (m, d1)) : d1.fontFile = d.fontFile := by
  unfold Document.process_images at h
  cases hpc : process_content fs o [] d.content with
  | error e =>
    rw [hpc] at h
    simp at h
  | ok pr =>
    obtain ⟨mm, c'⟩ := pr
    rw [hpc] at h
    simp only [Except.ok.injEq, Prod.mk.injEq] at h
    rw [← h.2]

/-- C6: a font-file path that does not reference an existing file raises
the missing-font error naming the path, both when configured through the
builder (`set_font_file`, at assignment time) and during processing
(`process_fonts`); in the generation pipeline the error surfaces before
any markup is produced (the serializer is never reached, so the result
carries no markup). -/
theorem c6_missing_font_error (fs : FS) (b : DocumentBuilder) (p : Str)
    (fn : Option Str) (outDir : Str) (d : Document) (m : List (Str × Str))
    (d1 : Document)
    (hp : fs.pathExists p = false) (hd : d.fontFile = some p) (hne : p ≠ [])
    (himg : d.process_images fs outDir = .ok (m, d1)) :
    b.set_font_file fs p fn = .error (lit "フォントファイルが見つかりません: " ++ p) ∧
    d.process_fonts fs outDir = .error (lit "フォントファイルが見つかりません: " ++ p) ∧
    generate_latex fs outDir d = .error (lit "フォントファイルが見つかりません: " ++ p) := by
  have hpe : p.isEmpty = false := by
    rcases p with _ | ⟨c, cs⟩
    · exact absurd rfl hne
    · rfl
  have hpf : d.process_fonts fs outDir =
      .error (lit "フォントファイルが見つかりません: " ++ p) := by
    unfold Document.process_fonts
    rw [hd]
    simp [hpe, hp]
  refine ⟨?_, hpf, ?_⟩
  · unfold DocumentBuilder.set_font_file
    simp [hp]
  · have hd1 : d1.fontFile = some p := by
      rw [process_images_fontFile fs outDir d m d1 himg, hd]
    have hpf1 : d1.process_fonts fs outDir =
        .error (lit "フォントファイルが見つかりません: " ++ p) := by
      unfold Document.process_fonts
      rw [hd1]
      simp [hpe, hp]
    unfold generate_latex
    simp only [himg, hpf1]

/-- Witness for C6 at a concrete contentless document configured with a
missing font file. -/
theorem c6_missing_font_error_witness :
    generate_latex fsEmpty (lit "out")
      { Document.init (some (lit "T")) [] with fontFile := some (lit "f.ttf") } =
      .error (lit "フォントファイルが見つかりません: " ++ lit "f.ttf") :=
  (c6_missing_font_error fsEmpty (DocumentBuilder.init) (lit "f.ttf") none (lit "out")
    { Document.init (some (lit "T")) [] with fontFile := some (lit "f.ttf") } []
    { Document.init (some (lit "T")) [] with fontFile := some (lit "f.ttf") }
    rfl rfl (by decide) rfl).2.2

/-- C7 counterexample: the call that supplies the mismatched row — the
Table constructor — raises nothing (it returns the table unchecked); the
mismatch error is raised only later, when `to_latex` renders the table. -/
theorem c7_table_mismatch_counterexample :
    Table.init [lit "a", lit "b"] [[lit "x"]] =
      .ok ⟨[lit "a", lit "b"], [[lit "x"]], none, none, lit "h"⟩ ∧
    Table.to_latex ⟨[lit "a", lit "b"], [[lit "x"]], none, none, lit "h"⟩ =
      .error (lit "行の列数が一致しません: 期待値=2, 実際=1") :=
  ⟨rfl, rfl⟩

/-- The row loop raises the mismatch error whenever some row's width
differs from the header count. -/
theorem table_rows_latex_error (n : Nat) :
    ∀ rows : List (List Str), (∃ r ∈ rows, r.length ≠ n) →
      ∃ msg, table_rows_latex n rows = .error msg := by
  intro rows
  induction rows with
  | nil =>
    rintro ⟨r, hr, -⟩
    exact absurd hr (List.not_mem_nil r)
  | cons r rest ih =>
    rintro ⟨r', hr', hmis⟩
    by_cases hlen : r.length ≠ n
    · refine ⟨lit "行の列数が一致しません: 期待値=" ++ (toString n).data ++
        lit ", 実際=" ++ (toString r.length).data, ?_⟩
      simp only [table_rows_latex]
      rw [if_pos hlen]
    · push_neg at hlen
      rcases List.mem_cons.mp hr' with he | hm
      · subst he
        exact absurd hlen hmis
      · obtain ⟨msg, hmsg⟩ := ih ⟨r', hm, hmis⟩
        refine ⟨msg, ?_⟩
        simp [table_rows_latex, hlen, hmsg]

/-- C7 amended: a row whose width differs from the header count makes
rendering raise the mismatch error — the row is never part of a
successfully rendered table — while the constructor accepts any rows
without validation; the error therefore surfaces at render time, not at
the call that supplied the data. -/
theorem c7_table_mismatch_amended (t : Table) (row : List Str)
    (hrow : row ∈ t.rows) (hmis : row.length ≠ t.headers.length) :
    (∃ msg, t.to_latex = .error msg) ∧
    (∀ (headers : List Str) (rows : List (List Str)) (caption label : Option Str)
      (position : Str), ∃ t', Table.init headers rows caption label position = .ok t') := by
  constructor
  · obtain ⟨msg, hmsg⟩ := table_rows_latex_error t.headers.length t.rows ⟨row, hrow, hmis⟩
    exact ⟨msg, by simp [Table.to_latex, hmsg]⟩
  · intro hs rs c l pos
    exact ⟨_, rfl⟩

/-- Witness for the amended C7 at a concrete two-header table with a
one-cell row. -/
theorem c7_table_mismatch_amended_witness :
    ∃ msg, Table.to_latex ⟨[lit "a", lit "b"], [[lit "x"]], none, none, lit "h"⟩ =
      .error msg :=
  (c7_table_mismatch_amended ⟨[lit "a", lit "b"], [[lit "x"]], none, none, lit "h"⟩
    [lit "x"] (by decide) (by decide)).1

/-- Unfolding of resource processing at an image element. -/
theorem pr_image_eq (fs : FS) (o : Str) (p : Str) (cap : Option Str) (w : Str)
    (ht : Option Str) (lab : Option Str) (pos : Str) (inl : Bool) (pp : Option Str) :
    Element.process_resources fs o (.image p cap w ht lab pos inl pp) =
      if fs.pathExists p then
        .ok ([(p, lit "images/" ++ path_name p)],
             .image p cap w ht lab pos inl (some (lit "images/" ++ path_name p)))
      else .error (lit "画像ファイルが見つかりません: " ++ p) := rfl

/-- Unfolding of resource processing at a text element. -/
theorem pr_text_eq (fs : FS) (o : Str) (c : Str) (b : Bool) (ch : ElementList) :
    Element.process_resources fs o (.text c b ch) =
      match process_children fs o [] ch with
      | .error err => .error err
      | .ok (m, children') => .ok (m, .text c b children') := rfl

/-- Unfolding of resource processing at a paragraph element. -/
theorem pr_paragraph_eq (fs : FS) (o : Str) (c : Str) (b : Bool) (ch : ElementList) :
    Element.process_resources fs o (.paragraph c b ch) =
      match process_children fs o [] ch with
      | .error err => .error err
      | .ok (m, children') => .ok (m, .paragraph c b children') := rfl

/-- Unfolding of resource processing at a section element. -/
theorem pr_sect_eq (fs : FS) (o : Str) (t : Str) (lv : Int) (lab : Option Str)
    (n : Bool) (ch : ElementList) :
    Element.process_resources fs o (.sect t lv lab n ch) =
      match process_children fs o [] ch with
      | .error err => .error err
      | .ok (m, children') => .ok (m, .sect t lv lab n children') := rfl

/-- Unfolding of resource processing at an exercise element. -/
theorem pr_exercise_eq (fs : FS) (o : Str) (t c : Str) (its : List Str) (cols : Int)
    (ch : ElementList) :
    Element.process_resources fs o (.exercise t c its cols ch) =
      match process_children fs o [] ch with
      | .error err => .error err
      | .ok (m, children') => .ok (m, .exercise t c its cols children') := rfl

/-- Unfolding of resource processing at a drawing-space element without
margin content. -/
theorem pr_ds_noContent_eq (fs : FS) (o : Str) (w rm : Str) (ch : ElementList) :
    Element.process_resources fs o (.drawingSpace w rm .noContent ch) =
      match process_children fs o [] ch with
      | .error err => .error err
      | .ok (m, children') => .ok (m, .drawingSpace w rm .noContent children') := rfl

/-- Unfolding of resource processing at a drawing-space element with string
margin content. -/
theorem pr_ds_ofStr_eq (fs : FS) (o : Str) (w rm s : Str) (ch : ElementList) :
    Element.process_resources fs o (.drawingSpace w rm (.ofStr s) ch) =
      match process_children fs o [] ch with
      | .error err => .error err
      | .ok (m, children') => .ok (m, .drawingSpace w rm (.ofStr s) children') := rfl

/-- Unfolding of resource processing at a drawing-space element with an
element as margin content. -/
theorem pr_ds_ofElem_eq (fs : FS) (o : Str) (w rm : Str) (me : Element)
    (ch : ElementList) :
    Element.process_resources fs o (.drawingSpace w rm (.ofElem me) ch) =
      match process_children fs o [] ch with
      | .error err => .error err
      | .ok (m, children') =>
        match Element.process_resources fs o me with
        | .error err => .error err
        | .ok (m2, e') =>
            .ok (rmap_update m m2, .drawingSpace w rm (.ofElem e') children') := rfl

/-- Unfolding of the child loop at the empty list. -/
theorem pc_nil_eq (fs : FS) (o : Str) (acc : List (Str × Str)) :
    process_children fs o acc .nil = .ok (acc, .nil) := rfl

/-- Unfolding of the child loop at a cons. -/
theorem pc_cons_eq (fs : FS) (o : Str) (acc : List (Str × Str)) (e : Element)
    (es : ElementList) :
    process_children fs o acc (.cons e es) =
      match Element.process_resources fs o e with
      | .error err => .error err
      | .ok (m, e') =>
        match process_children fs o (rmap_update acc m) es with
        | .error err => .error err
        | .ok (res, es') => .ok (res, .cons e' es') := rfl

mutual
/-- Reprocessing an already processed element with the same output
directory returns the same mapping and leaves every cached resolved path
unchanged. -/
theorem process_resources_idem (fs : FS) (o : Str) (e : Element)
    (m : List (Str × Str)) (e' : Element)
    (h : Element.process_resources fs o e = .ok (m, e')) :
    Element.process_resources fs o e' = .ok (m, e') := by
  cases e with
  | image p cap w ht lab pos inl pp =>
    rw [pr_image_eq] at h
    by_cases hex : fs.pathExists p = true
    · rw [if_pos hex] at h
      simp only [Except.ok.injEq, Prod.mk.injEq] at h
      obtain ⟨h1, h2⟩ := h
      subst h1
      subst h2
      rw [pr_image_eq, if_pos hex]
    · rw [if_neg hex] at h
      exact Except.noConfusion h
  | text c b ch =>
    rw [pr_text_eq] at h
    cases hpc : process_children fs o [] ch with
    | error err =>
      rw [hpc] at h
      exact Except.noConfusion h
    | ok pr =>
      obtain ⟨mm, ch'⟩ := pr
      rw [hpc] at h
      simp only [Except.ok.injEq, Prod.mk.injEq] at h
      obtain ⟨h1, h2⟩ := h
      subst h1
      subst h2
      have hch := process_children_idem fs o ch [] mm ch' hpc
      rw [pr_text_eq, hch]
  | paragraph c b ch =>
    rw [pr_paragraph_eq] at h
    cases hpc : process_children fs o [] ch with
    | error err =>
      rw [hpc] at h
      exact Except.noConfusion h
    | ok pr =>
      obtain ⟨mm, ch'⟩ := pr
      rw [hpc] at h
      simp only [Except.ok.injEq, Prod.mk.injEq] at h
      obtain ⟨h1, h2⟩ := h
      subst h1
      subst h2
      have hch := process_children_idem fs o ch [] mm ch' hpc
      rw [pr_paragraph_eq, hch]
  | sect t lv lab n ch =>
    rw [pr_sect_eq] at h
    cases hpc : process_children fs o [] ch with
    | error err =>
      rw [hpc] at h
      exact Except.noConfusion h
    | ok pr =>
      obtain ⟨mm, ch'⟩ := pr
      rw [hpc] at h
      simp only [Except.ok.injEq, Prod.mk.injEq] at h
      obtain ⟨h1, h2⟩ := h
      subst h1
      subst h2
      have hch := process_children_idem fs o ch [] mm ch' hpc
      rw [pr_sect_eq, hch]
  | exercise t c its cols ch =>
    rw [pr_exercise_eq] at h
    cases hpc : process_children fs o [] ch with
    | error err =>
      rw [hpc] at h
      exact Except.noConfusion h
    | ok pr =>
      obtain ⟨mm, ch'⟩ := pr
      rw [hpc] at h
      simp only [Except.ok.injEq, Prod.mk.injEq] at h
      obtain ⟨h1, h2⟩ := h
      subst h1
      subst h2
      have hch := process_children_idem fs o ch [] mm ch' hpc
      rw [pr_exercise_eq, hch]
  | drawingSpace w rm mc ch =>
    cases mc with
    | noContent =>
      rw [pr_ds_noContent_eq] at h
      cases hpc : process_children fs o [] ch with
      | error err =>
        rw [hpc] at h
        exact Except.noConfusion h
      | ok pr =>
        obtain ⟨mm, ch'⟩ := pr
        rw [hpc] at h
        simp only [Except.ok.injEq, Prod.mk.injEq] at h
        obtain ⟨h1, h2⟩ := h
        subst h1
        subst h2
        have hch := process_children_idem fs o ch [] mm ch' hpc
        rw [pr_ds_noContent_eq, hch]
    | ofStr s =>
      rw [pr_ds_ofStr_eq] at h
      cases hpc : process_children fs o [] ch with
      | error err =>
        rw [hpc] at h
        exact Except.noConfusion h
      | ok pr =>
        obtain ⟨mm, ch'⟩ := pr
        rw [hpc] at h
        simp only [Except.ok.injEq, Prod.mk.injEq] at h
        obtain ⟨h1, h2⟩ := h
        subst h1
        subst h2
        have hch := process_children_idem fs o ch [] mm ch' hpc
        rw [pr_ds_ofStr_eq, hch]
    | ofElem me =>
      rw [pr_ds_ofElem_eq] at h
      cases hpc : process_children fs o [] ch with
      | error err =>
        rw [hpc] at h
        exact Except.noConfusion h
      | ok pr =>
        obtain ⟨mm, ch'⟩ := pr
        simp only [hpc] at h
        cases hme : Element.process_resources fs o me with
        | error err =>
          rw [hme] at h
          exact Except.noConfusion h
        | ok pr2 =>
          obtain ⟨m2, me'⟩ := pr2
          rw [hme] at h
          simp only [Except.ok.injEq, Prod.mk.injEq] at h
          obtain ⟨h1, h2⟩ := h
          subst h1
          subst h2
          have hch := process_children_idem fs o ch [] mm ch' hpc
          have hme' := process_resources_idem fs o me m2 me' hme
          rw [pr_ds_ofElem_eq]
          simp only [hch, hme']
/-- Reprocessing an already processed child list with the same accumulator
returns the same merged mapping and the same children. -/
theorem process_children_idem (fs : FS) (o : Str) (es : ElementList)
    (acc m : List (Str × Str)) (es' : ElementList)
    (h : process_children fs o acc es = .ok (m, es')) :
    process_children fs o acc es' = .ok (m, es') := by
  cases es with
  | nil =>
    rw [pc_nil_eq] at h
    simp only [Except.ok.injEq, Prod.mk.injEq] at h
    obtain ⟨h1, h2⟩ := h
    subst h1
    subst h2
    rfl
  | cons e es0 =>
    rw [pc_cons_eq] at h
    cases he : Element.process_resources fs o e with
    | error err =>
      rw [he] at h
      exact Except.noConfusion h
    | ok pr =>
      obtain ⟨me, e1⟩ := pr
      simp only [he] at h
      cases hrest : process_children fs o (rmap_update acc me) es0 with
      | error err =>
        rw [hrest] at h
        exact Except.noConfusion h
      | ok pr2 =>
        obtain ⟨res, es1⟩ := pr2
        rw [hrest] at h
        simp only [Except.ok.injEq, Prod.mk.injEq] at h
        obtain ⟨h1, h2⟩ := h
        subst h1
        subst h2
        have he1 := process_resources_idem fs o e me e1 he
        have hes1 := process_children_idem fs o es0 (rmap_update acc me) res es1 hrest
        rw [pc_cons_eq]
        simp only [he1, hes1]
end

/-- Reprocessing an already processed top-level content list with the same
accumulator returns the same merged mapping and the same elements. -/
theorem process_content_idem (fs : FS) (o : Str) :
    ∀ (es : List Element) (acc m : List (Str × Str)) (es' : List Element),
      process_content fs o acc es = .ok (m, es') →
      process_content fs o acc es' = .ok (m, es') := by
  intro es
  induction es with
  | nil =>
    intro acc m es' h
    simp only [process_content] at h
    simp only [Except.ok.injEq, Prod.mk.injEq] at h
    obtain ⟨h1, h2⟩ := h
    subst h1
    subst h2
    rfl
  | cons e es0 ih =>
    intro acc m es' h
    simp only [process_content] at h
    cases he : Element.process_resources fs o e with
    | error err =>
      rw [he] at h
      exact Except.noConfusion h
    | ok pr =>
      obtain ⟨me, e1⟩ := pr
      simp only [he] at h
      cases hrest : process_content fs o (rmap_update acc me) es0 with
      | error err =>
        rw [hrest] at h
        exact Except.noConfusion h
      | ok pr2 =>
        obtain ⟨res, es1⟩ := pr2
        rw [hrest] at h
        simp only [Except.ok.injEq, Prod.mk.injEq] at h
        obtain ⟨h1, h2⟩ := h
        subst h1
        subst h2
        have he1 := process_resources_idem fs o e me e1 he
        have hes1 := ih (rmap_update acc me) res es1 hrest
        simp only [process_content, he1, hes1]

/-- C8: the resource-processing pass is idempotent in its path resolution:
when a first pass over a document succeeds, running it again with the same
output directory returns the same original-path-to-resolved-path mapping
and leaves every element's cached resolved path (and the whole processed
document) unchanged. -/
theorem c8_process_resources_idempotent (fs : FS) (o : Str) (d : Document)
    (m : List (Str × Str)) (d' : Document)
    (h : d.process_images fs o = .ok (m, d')) :
    d'.process_images fs o = .ok (m, d') := by
  unfold Document.process_images at h ⊢
  cases hpc : process_content fs o [] d.content with
  | error err =>
    rw [hpc] at h
    exact Except.noConfusion h
  | ok pr =>
    obtain ⟨mm, c'⟩ := pr
    rw [hpc] at h
    simp only [Except.ok.injEq, Prod.mk.injEq] at h
    obtain ⟨h1, h2⟩ := h
    subst h1
    subst h2
    have hcc : ({ d with content := c' } : Document).content = c' := rfl
    have hidem := process_content_idem fs o d.content [] mm c' hpc
    rw [hcc, hidem]

/-- Witness for C8: a document holding one existing image, processed
twice. -/
theorem c8_process_resources_idempotent_witness :
    Document.process_images
      { pathExists := fun p => p == lit "img.png", absolute := fun p => p,
        globBoldTtf := fun _ => none, globBoldOtf := fun _ => none } (lit "out")
      { Document.init (some (lit "T")) [] with
        content := [.image (lit "img.png") none (lit "0.8") none none (lit "h")
          false none] } =
      .ok ([(lit "img.png", lit "images/img.png")],
        { Document.init (some (lit "T")) [] with
          content := [.image (lit "img.png") none (lit "0.8") none none (lit "h")
            false (some (lit "images/img.png"))] }) ∧
    Document.process_images
      { pathExists := fun p => p == lit "img.png", absolute := fun p => p,
        globBoldTtf := fun _ => none, globBoldOtf := fun _ => none } (lit "out")
      { Document.init (some (lit "T")) [] with
        content := [.image (lit "img.png") none (lit "0.8") none none (lit "h")
          false (some (lit "images/img.png"))] } =
      .ok ([(lit "img.png", lit "images/img.png")],
        { Document.init (some (lit "T")) [] with
          content := [.image (lit "img.png") none (lit "0.8") none none (lit "h")
            false (some (lit "images/img.png"))] }) := by
  have h1 : Document.process_images
      { pathExists := fun p => p == lit "img.png", absolute := fun p => p,
        globBoldTtf := fun _ => none, globBoldOtf := fun _ => none } (lit "out")
      { Document.init (some (lit "T")) [] with
        content := [.image (lit "img.png") none (lit "0.8") none none (lit "h")
          false none] } =
      .ok ([(lit "img.png", lit "images/img.png")],
        { Document.init (some (lit "T")) [] with
          content := [.image (lit "img.png") none (lit "0.8") none none (lit "h")
            false (some (lit "images/img.png"))] }) := rfl
  exact ⟨h1, c8_process_resources_idempotent _ _ _ _ _ h1⟩

/-- C9 counterexample: after adding element 2 under parent 0 and then under
parent 1, element 2 appears in the children lists of two different parents
simultaneously (the add operation removes nothing), and its back-reference
points only to the most recent parent. -/
theorem c9_tree_counterexample :
    (0 : Nat) ≠ 1 ∧
    2 ∈ ((run_adds heap0 [(0, 2), (1, 2)]) 0).children ∧
    2 ∈ ((run_adds heap0 [(0, 2), (1, 2)]) 1).children ∧
    ((run_adds heap0 [(0, 2), (1, 2)]) 2).parent = some 1 := by
  refine ⟨by decide, by decide, by decide, by decide⟩

/-- The children list of a node after one add: only the parent's list
changes, by appending the child. -/
theorem add_child_children (h : Nat → NodeState) (p0 c0 i : Nat) :
    ((add_child h p0 c0) i).children =
      (h i).children ++ (if i = p0 then [c0] else []) := by
  unfold add_child
  by_cases hip : i = p0 <;> by_cases hic : i = c0 <;> simp [hip, hic] <;>
    split <;> simp_all

/-- The parent back-reference after one add: only the child's reference
changes, to the new parent. -/
theorem add_child_parent (h : Nat → NodeState) (p0 c0 i : Nat) :
    ((add_child h p0 c0) i).parent =
      if i = c0 then some p0 else (h i).parent := by
  unfold add_child
  by_cases hip : i = p0 <;> by_cases hic : i = c0 <;> simp [hip, hic] <;>
    split <;> simp_all

/-- Invariant preservation for add sequences: from a heap whose children
are all drawn from `seen` with correct unique ownership, running adds whose
child arguments are fresh and pairwise distinct keeps every child owned by
exactly one parent, with the back-reference pointing at it. -/
theorem run_adds_inv :
    ∀ (ops : List (Nat × Nat)) (h : Nat → NodeState) (seen : List Nat),
      (∀ c p, c ∈ (h p).children → c ∈ seen) →
      (∀ c p, c ∈ (h p).children →
        (h c).parent = some p ∧ ∀ q, c ∈ (h q).children → q = p) →
      (ops.map Prod.snd).Nodup →
      (∀ pc ∈ ops, pc.2 ∉ seen) →
      ∀ c p, c ∈ ((run_adds h ops) p).children →
        ((run_adds h ops) c).parent = some p ∧
          ∀ q, c ∈ ((run_adds h ops) q).children → q = p := by
  intro ops
  induction ops with
  | nil =>
    intro h seen _ hinv _ _
    exact hinv
  | cons pc rest ih =>
    obtain ⟨p0, c0⟩ := pc
    intro h seen hseen hinv hnodup hfresh
    have hc0seen : c0 ∉ seen := hfresh (p0, c0) (List.mem_cons_self _ _)
    have hmap : ((p0, c0) :: rest).map Prod.snd = c0 :: rest.map Prod.snd := rfl
    rw [hmap] at hnodup
    obtain ⟨hc0rest, hnodup'⟩ := List.nodup_cons.mp hnodup
    apply ih (add_child h p0 c0) (c0 :: seen)
    · intro c p hc
      rw [add_child_children] at hc
      rcases List.mem_append.mp hc with hold | hnew
      · exact List.mem_cons_of_mem c0 (hseen c p hold)
      · by_cases hip : p = p0
        · rw [if_pos hip] at hnew
          rw [List.mem_singleton.mp hnew]
          exact List.mem_cons_self c0 seen
        · rw [if_neg hip] at hnew
          exact absurd hnew (List.not_mem_nil c)
    · intro c p hc
      rw [add_child_children] at hc
      rcases List.mem_append.mp hc with hold | hnew
      · have hcseen := hseen c p hold
        have hcne : c ≠ c0 := fun he => hc0seen (he ▸ hcseen)
        obtain ⟨hpar, huni⟩ := hinv c p hold
        refine ⟨?_, ?_⟩
        · rw [add_child_parent, if_neg hcne]
          exact hpar
        · intro q hq
          rw [add_child_children] at hq
          rcases List.mem_append.mp hq with hqold | hqnew
          · exact huni q hqold
          · by_cases hqp : q = p0
            · rw [if_pos hqp] at hqnew
              exact absurd (List.mem_singleton.mp hqnew) hcne
            · rw [if_neg hqp] at hqnew
              exact absurd hqnew (List.not_mem_nil c)
      · by_cases hip : p = p0
        case neg =>
          rw [if_neg hip] at hnew
          exact absurd hnew (List.not_mem_nil c)
        case pos =>
          rw [if_pos hip] at hnew
          have hcc : c = c0 := List.mem_singleton.mp hnew
          subst hcc
          subst hip
          refine ⟨?_, ?_⟩
          · rw [add_child_parent, if_pos rfl]
          · intro q hq
            rw [add_child_children] at hq
            rcases List.mem_append.mp hq with hqold | hqnew
            · exact absurd (hseen c q hqold) hc0seen
            · by_cases hqp : q = p
              · exact hqp
              · rw [if_neg hqp] at hqnew
                exact absurd hqnew (List.not_mem_nil c)
    · exact hnodup'
    · intro pc2 hpc2
      intro hmem
      rcases List.mem_cons.mp hmem with he | hs
      · refine hc0rest ?_
        rw [← he]
        exact List.mem_map_of_mem Prod.snd hpc2
      · exact hfresh pc2 (List.mem_cons_of_mem _ hpc2) hs

/-- C9 amended: the `add` operation appends to the new parent and updates
the back-reference but never removes the child from a former parent, so
tree-ness holds exactly for sequences that supply each element as the child
argument at most once: after any such sequence, every element appearing in
a children list appears in the children list of exactly one parent, and its
back-reference points to that parent. -/
theorem c9_tree_amended (ops : List (Nat × Nat)) (hnodup : (ops.map Prod.snd).Nodup)
    (c p : Nat) (hc : c ∈ ((run_adds heap0 ops) p).children) :
    ((run_adds heap0 ops) c).parent = some p ∧
      ∀ q, c ∈ ((run_adds heap0 ops) q).children → q = p :=
  run_adds_inv ops heap0 []
    (fun c _ hcp => absurd hcp (List.not_mem_nil c))
    (fun c _ hcp => absurd hcp (List.not_mem_nil c))
    hnodup (fun pc _ => List.not_mem_nil pc.2) c p hc

/-- Witness for the amended C9 at the one-operation sequence adding element
2 under parent 0. -/
theorem c9_tree_amended_witness :
    ((run_adds heap0 [(0, 2)]) 2).parent = some 0 :=
  (c9_tree_amended [(0, 2)] (by decide) 2 0 (by decide)).1

/-- Witness for C2 at a concrete two-item exercise built with one and two
columns. -/
theorem c2_exercise_multicols_witness :
    (¬ lit "multicols" <:+:
      (Element.exercise (lit "Q1") (lit "Solve.") [lit "a", lit "b"] 1 .nil).to_latex) ∧
    (lit "\\begin\x7bmulticols\x7d\x7b2\x7d" <:+:
      (Element.exercise (lit "Q1") (lit "Solve.") [lit "a", lit "b"] 2 .nil).to_latex) ∧
    dict_lookup ((DocumentBuilder.init).add_exercise (lit "Q1") (lit "Solve.")
        (some [lit "a", lit "b"]) 2).document.packages (lit "multicol") = some none := by
  obtain ⟨h1, h2, h3⟩ := c2_exercise_multicols (DocumentBuilder.init) (lit "Q1")
    (lit "Solve.") [lit "a", lit "b"] (by decide) (by decide) (by decide)
  exact ⟨h1, h2 (by decide), h3⟩
